import Mathlib

/-!
Verification of the DNS wire codec (repository perryqh/dns).

The Rust sources under src/ are shallowly embedded here:
byte_packet_buffer.rs, header.rs, question.rs, record.rs, packet.rs.
Machine integers are modelled as Nat; the u8 buffer is a total function
from positions to byte values; every fallible operation runs in a
state-and-error monad (EStateM) whose error case keeps the buffer state,
matching Rust functions that take the buffer by mutable reference and
return anyhow::Result.  Rust panics (the From conversions for
Opcode/RCode/QType/QClass) are modelled by a dedicated error
constructor, kept distinct from the anyhow bail sites, because a panic
aborts the process instead of being surfaced as a recoverable Result.
Domain names are modelled as byte lists; the source's
String::from_utf8_lossy(..).to_lowercase() is modelled bytewise by an
ASCII lowercase map, which is faithful for ASCII byte content (the
round-trip theorems restrict name bytes to ASCII accordingly).
-/

set_option maxHeartbeats 1000000

namespace Dns

/-- Errors of the codec.  endOfBuffer, jumpsExceeded and labelTooLong
model the three anyhow::bail! sites of byte_packet_buffer.rs; panicked
models a Rust panic! (process abort, not a recoverable error value). -/
inductive DnsError where
  | endOfBuffer
  | jumpsExceeded
  | labelTooLong
  | panicked (msg : String)
deriving DecidableEq

/-- True exactly for the error that models a Rust panic. -/
def DnsError.isPanic : DnsError → Bool
  | .panicked _ => true
  | _ => false

/-- BytePacketBuffer from byte_packet_buffer.rs: a fixed 512-byte array
(modelled as a total function from positions to byte values) plus a
cursor position. -/
structure BytePacketBuffer where
  buf : Nat → Nat
  pos : Nat

/-- State-and-error monad for buffer operations. -/
def DnsM (α : Type) : Type := EStateM DnsError BytePacketBuffer α

instance : Monad DnsM := inferInstanceAs (Monad (EStateM DnsError BytePacketBuffer))

/-- Pointwise update of the byte array at one position. -/
def setByte (f : Nat → Nat) (p v : Nat) : Nat → Nat :=
  fun i => if i = p then v else f i

namespace BytePacketBuffer

/-- BytePacketBuffer::new: zero-filled buffer, cursor at 0. -/
def new : BytePacketBuffer := ⟨fun _ => 0, 0⟩

/-- BytePacketBuffer::step: advance the cursor; always Ok in the source. -/
def step (steps : Nat) : DnsM Unit :=
  fun b => .ok () { b with pos := b.pos + steps }

/-- Pure form of BytePacketBuffer::seek (the source returns Ok(()) unconditionally). -/
def seekFn (p : Nat) (b : BytePacketBuffer) : BytePacketBuffer :=
  { b with pos := p }

/-- BytePacketBuffer::seek. -/
def seek (p : Nat) : DnsM Unit :=
  fun b => .ok () (seekFn p b)

/-- BytePacketBuffer::read: byte at the cursor, cursor advances by one;
End of buffer when pos >= 512. -/
def read : DnsM Nat :=
  fun b =>
    if 512 ≤ b.pos then .error .endOfBuffer b
    else .ok (b.buf b.pos) { b with pos := b.pos + 1 }

/-- BytePacketBuffer::get: byte at an absolute position, cursor untouched. -/
def get (p : Nat) : DnsM Nat :=
  fun b =>
    if 512 ≤ p then .error .endOfBuffer b
    else .ok (b.buf p) b

/-- BytePacketBuffer::get_range: the len bytes starting at start; fails
when start + len >= 512 (the source's strict bound). -/
def get_range (start len : Nat) : DnsM (List Nat) :=
  fun b =>
    if 512 ≤ start + len then .error .endOfBuffer b
    else .ok ((List.range len).map fun i => b.buf (start + i)) b

/-- BytePacketBuffer::read_u16: two big-endian bytes via read. -/
def read_u16 : DnsM Nat := do
  let hi ← read
  let lo ← read
  pure ((hi <<< 8) ||| lo)

/-- BytePacketBuffer::read_u32: four big-endian bytes via read. -/
def read_u32 : DnsM Nat := do
  let b0 ← read
  let b1 ← read
  let b2 ← read
  let b3 ← read
  pure ((((b0 <<< 24) ||| (b1 <<< 16)) ||| (b2 <<< 8)) ||| b3)

/-- Bytewise model of String::from_utf8_lossy(..).to_lowercase(),
faithful for ASCII bytes. -/
def asciiToLower (x : Nat) : Nat :=
  if 65 ≤ x ∧ x ≤ 90 then x + 32 else x

/-- Loop body of BytePacketBuffer::read_qname, with explicit fuel (none
signals fuel exhaustion; a sufficiency theorem below shows the fuel used
by read_qname is never exhausted).  Arguments mirror the loop state of
the source: local position, whether a jump happened, jumps performed,
the pending delimiter and the output accumulator. -/
def readQnameLoop (fuel pos : Nat) (jumped : Bool) (jumps : Nat)
    (delim acc : List Nat) (b : BytePacketBuffer) :
    Option (EStateM.Result DnsError BytePacketBuffer (List Nat)) :=
  match fuel with
  | 0 => none
  | fuel + 1 =>
    if 5 < jumps then some (.error .jumpsExceeded b)
    else
      match get pos b with
      | .error e b => some (.error e b)
      | .ok len b =>
        if len &&& 0xC0 = 0xC0 then
          let b := if !jumped then seekFn (pos + 2) b else b
          match get (pos + 1) b with
          | .error e b => some (.error e b)
          | .ok b2 b =>
            readQnameLoop fuel (((len ^^^ 0xC0) <<< 8) ||| b2) true (jumps + 1) delim acc b
        else
          let pos := pos + 1
          if len = 0 then some (.ok acc (if !jumped then seekFn pos b else b))
          else
            match get_range pos len b with
            | .error e b => some (.error e b)
            | .ok bytes b =>
              readQnameLoop fuel (pos + len) jumped jumps [46]
                (acc ++ delim ++ bytes.map asciiToLower) b

/-- BytePacketBuffer::read_qname.  The output string is returned rather
than threaded by mutable reference; every call site in the source passes
an empty string.  Fuel 4096 is shown sufficient below, so the default
branch of getD is unreachable. -/
def read_qname : DnsM (List Nat) :=
  fun b => (readQnameLoop 4096 b.pos false 0 [] [] b).getD (.error .jumpsExceeded b)

/-- BytePacketBuffer::write: store the byte at the cursor, advance by one;
End of buffer when pos >= 512. -/
def write (val : Nat) : DnsM Unit :=
  fun b =>
    if 512 ≤ b.pos then .error .endOfBuffer b
    else .ok () ⟨setByte b.buf b.pos val, b.pos + 1⟩

/-- BytePacketBuffer::write_u8. -/
def write_u8 (val : Nat) : DnsM Unit :=
  write val

/-- BytePacketBuffer::write_u16; the modulus models the as-u8 casts. -/
def write_u16 (val : Nat) : DnsM Unit := do
  write ((val >>> 8) % 256)
  write ((val &&& 0xFF) % 256)

/-- BytePacketBuffer::write_u32; the modulus models the as-u8 casts. -/
def write_u32 (val : Nat) : DnsM Unit := do
  write (((val >>> 24) &&& 0xFF) % 256)
  write (((val >>> 16) &&& 0xFF) % 256)
  write (((val >>> 8) &&& 0xFF) % 256)
  write ((val &&& 0xFF) % 256)

/-- Model of str::split('.') on byte lists: splits on byte 46, keeping
empty pieces, and yields one empty piece for the empty string. -/
def splitDots : List Nat → List (List Nat)
  | [] => [[]]
  | x :: rest =>
    match splitDots rest with
    | [] => [[]]
    | l :: ls => if x = 46 then [] :: l :: ls else (x :: l) :: ls

/-- Write the bytes of one label (the inner for loop of write_qname). -/
def writeBytes : List Nat → DnsM Unit
  | [] => pure ()
  | x :: xs => do
    write_u8 x
    writeBytes xs

/-- Write each dot-separated label: length byte then label bytes
(the outer for loop of write_qname). -/
def writeLabels : List (List Nat) → DnsM Unit
  | [] => pure ()
  | label :: rest => do
    if 0x3F < label.length then
      fun b => .error .labelTooLong b
    else do
      write_u8 label.length
      writeBytes label
      writeLabels rest

/-- BytePacketBuffer::write_qname: length-prefixed labels followed by a
zero terminator. -/
def write_qname (qname : List Nat) : DnsM Unit := do
  writeLabels (splitDots qname)
  write_u8 0

end BytePacketBuffer

open BytePacketBuffer

/-- Lift the result of a From conversion (which may panic) into the
buffer monad; the buffer state is untouched. -/
def liftE (x : Except DnsError α) : DnsM α :=
  fun b =>
    match x with
    | .ok a => .ok a b
    | .error e => .error e b

/-- Opcode enum from header.rs. -/
inductive Opcode where
  | QUERY
  | IQUERY
  | STATUS
deriving DecidableEq

/-- Numeric value of an Opcode (the as-u8 cast of the Rust enum). -/
def Opcode.toNat : Opcode → Nat
  | .QUERY => 0
  | .IQUERY => 1
  | .STATUS => 2

/-- RCode enum from header.rs. -/
inductive RCode where
  | NoError
  | FormatError
  | ServerFailure
  | NameError
  | NotImplemented
  | Refused
deriving DecidableEq

/-- Numeric value of an RCode (the as-u8 cast of the Rust enum). -/
def RCode.toNat : RCode → Nat
  | .NoError => 0
  | .FormatError => 1
  | .ServerFailure => 2
  | .NameError => 3
  | .NotImplemented => 4
  | .Refused => 5

/-- impl From for Opcode in header.rs; the catch-all arm is panic!. -/
def opcodeFromU8 (n : Nat) : Except DnsError Opcode :=
  if n = 0 then .ok .QUERY
  else if n = 1 then .ok .IQUERY
  else if n = 2 then .ok .STATUS
  else .error (.panicked "Invalid opcode")

/-- impl From for RCode in header.rs; the catch-all arm is panic!. -/
def rcodeFromU8 (n : Nat) : Except DnsError RCode :=
  if n = 0 then .ok .NoError
  else if n = 1 then .ok .FormatError
  else if n = 2 then .ok .ServerFailure
  else if n = 3 then .ok .NameError
  else if n = 4 then .ok .NotImplemented
  else if n = 5 then .ok .Refused
  else .error (.panicked "Invalid rcode")

/-- QType enum from question.rs. -/
inductive QType where
  | A | NS | MD | MF | CNAME | SOA | MB | MG | MR | NULL
  | WKS | PTR | HINFO | MINFO | MX | TXT
  | AXFR | MAILB | MAILA | ANY
deriving DecidableEq

/-- Numeric value of a QType (the as-u16 cast of the Rust enum). -/
def QType.toNat : QType → Nat
  | .A => 1
  | .NS => 2
  | .MD => 3
  | .MF => 4
  | .CNAME => 5
  | .SOA => 6
  | .MB => 7
  | .MG => 8
  | .MR => 9
  | .NULL => 10
  | .WKS => 11
  | .PTR => 12
  | .HINFO => 13
  | .MINFO => 14
  | .MX => 15
  | .TXT => 16
  | .AXFR => 252
  | .MAILB => 253
  | .MAILA => 254
  | .ANY => 255

/-- impl From for QType in question.rs; the catch-all arm is panic!. -/
def qtypeFromU16 (n : Nat) : Except DnsError QType :=
  if n = 1 then .ok .A
  else if n = 2 then .ok .NS
  else if n = 3 then .ok .MD
  else if n = 4 then .ok .MF
  else if n = 5 then .ok .CNAME
  else if n = 6 then .ok .SOA
  else if n = 7 then .ok .MB
  else if n = 8 then .ok .MG
  else if n = 9 then .ok .MR
  else if n = 10 then .ok .NULL
  else if n = 11 then .ok .WKS
  else if n = 12 then .ok .PTR
  else if n = 13 then .ok .HINFO
  else if n = 14 then .ok .MINFO
  else if n = 15 then .ok .MX
  else if n = 16 then .ok .TXT
  else if n = 252 then .ok .AXFR
  else if n = 253 then .ok .MAILB
  else if n = 254 then .ok .MAILA
  else if n = 255 then .ok .ANY
  else .error (.panicked "Invalid qtype")

/-- QClass enum from question.rs. -/
inductive QClass where
  | IN
  | CS
  | CH
  | HS
  | Any
deriving DecidableEq

/-- Numeric value of a QClass (the as-u16 cast of the Rust enum). -/
def QClass.toNat : QClass → Nat
  | .IN => 1
  | .CS => 2
  | .CH => 3
  | .HS => 4
  | .Any => 255

/-- impl From for QClass in question.rs; the catch-all arm is panic!. -/
def qclassFromU16 (n : Nat) : Except DnsError QClass :=
  if n = 1 then .ok .IN
  else if n = 2 then .ok .CS
  else if n = 3 then .ok .CH
  else if n = 4 then .ok .HS
  else if n = 255 then .ok .Any
  else .error (.panicked "Invalid qclass")

/-- Header struct from header.rs.  All u16 fields are Nat here; the
well-formedness predicate below bounds them where a theorem needs it. -/
structure Header where
  id : Nat
  is_reply : Bool
  opcode : Opcode
  authoritative : Bool
  truncation : Bool
  recursion_desired : Bool
  recursion_available : Bool
  rcode : RCode
  question_count : Nat
  answer_count : Nat
  authority_count : Nat
  additional_count : Nat
deriving DecidableEq

/-- impl Default for Header. -/
def Header.default : Header :=
  { id := 1234
    is_reply := true
    opcode := .QUERY
    authoritative := false
    truncation := false
    recursion_desired := false
    recursion_available := false
    rcode := .NoError
    question_count := 0
    answer_count := 0
    authority_count := 0
    additional_count := 0 }

/-- Header::read.  The source reads into an existing header but assigns
every field, so it is modelled as producing a fresh Header. -/
def Header.read : DnsM Header := do
  let id ← read_u16
  let flags ← read_u16
  let a := flags >>> 8
  let bb := flags &&& 0xFF
  let recursion_desired := decide (0 < (a &&& (1 <<< 0)))
  let truncation := decide (0 < (a &&& (1 <<< 1)))
  let authoritative := decide (0 < (a &&& (1 <<< 2)))
  let opcode ← liftE (opcodeFromU8 ((a >>> 3) &&& 0x0F))
  let is_reply := decide (0 < (a &&& (1 <<< 7)))
  let rcode ← liftE (rcodeFromU8 (bb &&& 0x0F))
  let recursion_available := decide (0 < (bb &&& (1 <<< 7)))
  let question_count ← read_u16
  let answer_count ← read_u16
  let authority_count ← read_u16
  let additional_count ← read_u16
  pure { id, is_reply, opcode, authoritative, truncation, recursion_desired,
         recursion_available, rcode, question_count, answer_count,
         authority_count, additional_count }

/-- Header::write: id, the two packed flag bytes, then the four counts. -/
def Header.write (h : Header) : DnsM Unit := do
  write_u16 h.id
  write_u8 ((((h.recursion_desired.toNat ||| (h.truncation.toNat <<< 1)) |||
      (h.authoritative.toNat <<< 2)) ||| (h.opcode.toNat <<< 3)) |||
      (h.is_reply.toNat <<< 7))
  write_u8 (h.rcode.toNat ||| (h.recursion_available.toNat <<< 7))
  write_u16 h.question_count
  write_u16 h.answer_count
  write_u16 h.authority_count
  write_u16 h.additional_count

/-- Question struct from question.rs; the name is a byte list. -/
structure Question where
  name : List Nat
  qtype : QType
  qclass : QClass
deriving DecidableEq

/-- impl Default for Question. -/
def Question.default : Question :=
  { name := [], qtype := .A, qclass := .IN }

/-- Question::read: name, then qtype and qclass through the (panicking)
From conversions.  The source appends into self.name, which is empty at
every call site, so the model reads a fresh name. -/
def Question.read : DnsM Question := do
  let name ← read_qname
  let qtype ← read_u16 >>= fun n => liftE (qtypeFromU16 n)
  let qclass ← read_u16 >>= fun n => liftE (qclassFromU16 n)
  pure { name, qtype, qclass }

/-- Modelled from the spec: Question encode is not in src/ (only
Question::read is).  Spec 4.3: write the domain name, then the numeric
type, then the numeric class. -/
def Question.write (q : Question) : DnsM Unit := do
  write_qname q.name
  write_u16 q.qtype.toNat
  write_u16 q.qclass.toNat

/-- Ipv4Addr as constructed by Ipv4Addr::new in record.rs: four octets. -/
structure Ipv4Addr where
  o0 : Nat
  o1 : Nat
  o2 : Nat
  o3 : Nat
deriving DecidableEq

/-- Record enum from record.rs. -/
inductive Record where
  | Unknown (domain : List Nat) (qtype : Nat) (data_len : Nat) (ttl : Nat)
  | A (domain : List Nat) (addr : Ipv4Addr) (ttl : Nat)
deriving DecidableEq

/-- Record::read: name, type (through the panicking From conversion),
discarded class, ttl, data_len, then either the A payload or a skip of
data_len bytes producing Unknown. -/
def Record.read : DnsM Record := do
  let domain ← read_qname
  let qtype_num ← read_u16
  let qtype ← liftE (qtypeFromU16 qtype_num)
  let _ ← read_u16
  let ttl ← read_u32
  let data_len ← read_u16
  match qtype with
  | .A => do
    let raw_addr ← read_u32
    let addr : Ipv4Addr :=
      ⟨(raw_addr >>> 24) &&& 0xFF, (raw_addr >>> 16) &&& 0xFF,
       (raw_addr >>> 8) &&& 0xFF, raw_addr &&& 0xFF⟩
    pure (Record.A domain addr ttl)
  | _ => do
    step data_len
    pure (Record.Unknown domain qtype_num data_len ttl)

/-- Record::write: the A variant writes name, type, class 1, ttl, length
4 and the four octets; every other variant writes nothing (the source
only prints a skip message).  Returns the number of bytes written. -/
def Record.write (r : Record) : DnsM Nat :=
  fun b0 =>
    (do
      match r with
      | Record.A domain addr ttl => do
        write_qname domain
        write_u16 QType.A.toNat
        write_u16 1
        write_u32 ttl
        write_u16 4
        write_u8 addr.o0
        write_u8 addr.o1
        write_u8 addr.o2
        write_u8 addr.o3
      | Record.Unknown _ _ _ _ =>
        pure ()
      fun b => .ok (b.pos - b0.pos) b : DnsM Nat) b0

/-- Packet struct from packet.rs. -/
structure Packet where
  header : Header
  questions : List Question
  answers : List Record
deriving DecidableEq

/-- impl Default for Packet. -/
def Packet.default : Packet :=
  { header := Header.default, questions := [], answers := [] }

/-- The question-reading for loop of Packet::from_buffer: read n
questions in order. -/
def readQuestions : Nat → DnsM (List Question)
  | 0 => pure []
  | n + 1 => do
    let q ← Question.read
    let qs ← readQuestions n
    pure (q :: qs)

/-- The answer-reading for loop of Packet::from_buffer: read n records
in order. -/
def readRecords : Nat → DnsM (List Record)
  | 0 => pure []
  | n + 1 => do
    let r ← Record.read
    let rs ← readRecords n
    pure (r :: rs)

/-- Packet::from_buffer: header, then question_count questions, then
answer_count answers, in wire order. -/
def Packet.from_buffer : DnsM Packet := do
  let header ← Header.read
  let questions ← readQuestions header.question_count
  let answers ← readRecords header.answer_count
  pure { header, questions, answers }

/-- Write each question in list order (the question for loop of the
spec's Message encode). -/
def writeQuestions : List Question → DnsM Unit
  | [] => pure ()
  | q :: qs => do
    q.write
    writeQuestions qs

/-- Write each answer in list order (the answer for loop of the spec's
Message encode). -/
def writeRecords : List Record → DnsM Unit
  | [] => pure ()
  | r :: rs => do
    let _ ← r.write
    writeRecords rs

/-- Modelled from the spec: Message encode is not in src/ (only decode,
Packet::from_buffer, is).  Spec 4.5: set header.question_count and
header.answer_count from the current list lengths, force
authority_count and additional_count to 0, encode the header, then each
question in list order, then each answer in list order. -/
def Packet.write (p : Packet) : DnsM Unit := do
  let h := { p.header with
    question_count := p.questions.length
    answer_count := p.answers.length
    authority_count := 0
    additional_count := 0 }
  h.write
  writeQuestions p.questions
  writeRecords p.answers

/-- Round trip of the spec: encode into a fresh buffer, then decode the
produced bytes from position 0. -/
def roundTrip (p : Packet) : EStateM.Result DnsError BytePacketBuffer Packet :=
  match Packet.write p BytePacketBuffer.new with
  | .ok _ b => Packet.from_buffer { b with pos := 0 }
  | .error e b => .error e b

/-! Wire-level byte lists: the exact bytes each writer stores. -/

/-- Bytes stored by write_u16. -/
def wireU16 (v : Nat) : List Nat :=
  [(v >>> 8) % 256, (v &&& 0xFF) % 256]

/-- Bytes stored by write_u32. -/
def wireU32 (v : Nat) : List Nat :=
  [((v >>> 24) &&& 0xFF) % 256, ((v >>> 16) &&& 0xFF) % 256,
   ((v >>> 8) &&& 0xFF) % 256, (v &&& 0xFF) % 256]

/-- High flags byte as packed by Header::write, on explicit components. -/
def flagsHiVal (rd t au : Bool) (op : Opcode) (rp : Bool) : Nat :=
  (((rd.toNat ||| (t.toNat <<< 1)) ||| (au.toNat <<< 2)) ||| (op.toNat <<< 3)) |||
    (rp.toNat <<< 7)

/-- Low flags byte as packed by Header::write, on explicit components. -/
def flagsLoVal (rc : RCode) (ra : Bool) : Nat :=
  rc.toNat ||| (ra.toNat <<< 7)

/-- Bytes stored by Header::write. -/
def wireHeader (h : Header) : List Nat :=
  wireU16 h.id ++
    [flagsHiVal h.recursion_desired h.truncation h.authoritative h.opcode h.is_reply,
     flagsLoVal h.rcode h.recursion_available] ++
    wireU16 h.question_count ++ wireU16 h.answer_count ++
    wireU16 h.authority_count ++ wireU16 h.additional_count

/-- Bytes stored for one label by write_qname: length byte then content. -/
def wireLabel (l : List Nat) : List Nat := l.length :: l

/-- Bytes stored for a label sequence. -/
def wireLabels : List (List Nat) → List Nat
  | [] => []
  | l :: ls => wireLabel l ++ wireLabels ls

/-- Bytes stored by write_qname: labels then the zero terminator. -/
def wireName (n : List Nat) : List Nat :=
  wireLabels (splitDots n) ++ [0]

/-- Bytes stored by Question encode. -/
def wireQuestion (q : Question) : List Nat :=
  wireName q.name ++ wireU16 q.qtype.toNat ++ wireU16 q.qclass.toNat

/-- Bytes stored by Record::write for the A variant. -/
def wireRecordA (domain : List Nat) (addr : Ipv4Addr) (ttl : Nat) : List Nat :=
  wireName domain ++ wireU16 QType.A.toNat ++ wireU16 1 ++ wireU32 ttl ++
    wireU16 4 ++ [addr.o0, addr.o1, addr.o2, addr.o3]

/-- Bytes stored by Record::write. -/
def wireRecord : Record → List Nat
  | .A d a t => wireRecordA d a t
  | .Unknown _ _ _ _ => []

/-- Bytes stored for a question list. -/
def wireQuestions : List Question → List Nat
  | [] => []
  | q :: qs => wireQuestion q ++ wireQuestions qs

/-- Bytes stored for an answer list. -/
def wireRecords : List Record → List Nat
  | [] => []
  | r :: rs => wireRecord r ++ wireRecords rs

/-- Header actually serialized by the spec's Message encode: counts are
recomputed from the list lengths, authority and additional forced to 0. -/
def Packet.encHeader (p : Packet) : Header :=
  { p.header with
    question_count := p.questions.length
    answer_count := p.answers.length
    authority_count := 0
    additional_count := 0 }

/-- Bytes stored by the spec's Message encode. -/
def wirePacket (p : Packet) : List Nat :=
  wireHeader p.encHeader ++ wireQuestions p.questions ++ wireRecords p.answers

/-! Specification predicates. -/

/-- The byte list bs sits in the byte array f starting at position p. -/
def HasBytes (f : Nat → Nat) : Nat → List Nat → Prop
  | _, [] => True
  | p, x :: xs => f p = x ∧ HasBytes f (p + 1) xs

/-- State transition of a successful write run: the cursor advanced over
exactly the stored bytes, every position outside the written range is
untouched, and the whole range lies inside the 512-byte buffer. -/
structure Wrote (x y : BytePacketBuffer) (bs : List Nat) : Prop where
  pos_eq : y.pos = x.pos + bs.length
  bound : x.pos + bs.length ≤ 512
  lo : ∀ i, i < x.pos → y.buf i = x.buf i
  hi : ∀ i, x.pos + bs.length ≤ i → y.buf i = x.buf i
  has : HasBytes y.buf x.pos bs

/-- A label that decodes back to itself: nonempty, at most 63 bytes, and
ASCII bytes that the lowercase fold leaves unchanged. -/
def GoodLabel (l : List Nat) : Prop :=
  l ≠ [] ∧ l.length ≤ 63 ∧ ∀ x ∈ l, x < 128 ∧ ¬(65 ≤ x ∧ x ≤ 90)

/-- A domain name all of whose dot-separated labels are good. -/
def GoodName (n : List Nat) : Prop :=
  ∀ l ∈ splitDots n, GoodLabel l

/-- Field bounds of the Rust u16 header fields. -/
def Header.Wf (h : Header) : Prop :=
  h.id < 65536 ∧ h.question_count < 65536 ∧ h.answer_count < 65536

/-- An answer record that is an A variant with in-range fields. -/
def Record.WfA : Record → Prop
  | .A d a t =>
    GoodName d ∧ a.o0 < 256 ∧ a.o1 < 256 ∧ a.o2 < 256 ∧ a.o3 < 256 ∧
      t < 4294967296
  | .Unknown _ _ _ _ => False

/-- A message whose encoding round-trips: header bounds, counts agreeing
with the list lengths, zero authority and additional counts, good
question names, and A-only well-formed answers. -/
def Packet.Wf (p : Packet) : Prop :=
  p.header.Wf ∧
    p.header.question_count = p.questions.length ∧
    p.header.answer_count = p.answers.length ∧
    p.header.authority_count = 0 ∧
    p.header.additional_count = 0 ∧
    (∀ q ∈ p.questions, GoodName q.name) ∧
    (∀ r ∈ p.answers, r.WfA)

/-- Positions reachable from a start position by skipping ordinary
(non-pointer, nonzero) length-prefixed labels: used to pin down where
the first compression pointer or the terminating zero of a name sits. -/
inductive SkipsTo (f : Nat → Nat) : Nat → Nat → Prop where
  | refl (p : Nat) : SkipsTo f p p
  | step (p q : Nat) (h1 : ¬f p &&& 0xC0 = 0xC0) (h2 : f p ≠ 0)
      (h3 : SkipsTo f (p + 1 + f p) q) : SkipsTo f p q

/-! Concrete inputs used by counterexamples and witnesses. -/

/-- Buffer whose first bytes are the given list (zero elsewhere), cursor 0. -/
def bufOfList (l : List Nat) : BytePacketBuffer :=
  ⟨fun i => l.getD i 0, 0⟩

/-- Buffer whose flags high byte carries opcode nibble 3 (reserved). -/
def badOpcodeBuf : BytePacketBuffer := bufOfList [0, 0, 0x18, 0]

/-- Buffer holding a resource record with type code 17 (not in the QType
enumeration): root name, type 17. -/
def badQtypeBuf : BytePacketBuffer := bufOfList [0, 0, 17]

/-- Buffer whose first two bytes are a compression pointer to offset 0:
a one-step pointer cycle. -/
def cycBuf : BytePacketBuffer := bufOfList [0xC0, 0]

/-- Expected read_qname output for a label sequence, given the pending
delimiter: what the decode loop appends for the remaining labels. -/
def joinDelim (delim : List Nat) : List (List Nat) → List Nat
  | [] => []
  | l :: ls => delim ++ l ++ joinDelim [46] ls

/-- Default message with a question count that disagrees with the
(empty) question list: input of the round-trip counterexample. -/
def mismatchPacket : Packet :=
  { header := { Header.default with question_count := 1 }
    questions := []
    answers := [] }

/-- Small well-formed message with one question and one A answer:
witness input for the round-trip theorem. -/
def witPacket : Packet :=
  { header := { Header.default with question_count := 1, answer_count := 1 }
    questions := [{ name := [97, 98], qtype := .A, qclass := .IN }]
    answers := [Record.A [97, 98] ⟨1, 2, 3, 4⟩ 60] }

/-! Theorems. -/

theorem lorDisjoint (x y k : Nat) (hd : 2 ^ k ∣ x) (hy : y < 2 ^ k) :
    x ||| y = x + y := by
  apply Nat.eq_of_testBit_eq
  intro i
  rw [Nat.testBit_or]
  obtain ⟨m, rfl⟩ := hd
  have hpos : ∀ j : Nat, 0 < 2 ^ j := fun j => Nat.pos_pow_of_pos j (by norm_num)
  rcases Nat.lt_or_ge i k with hik | hik
  · have hsplit : (2 : Nat) ^ (k - i) = 2 * 2 ^ (k - i - 1) := by
      rw [← pow_succ']; congr 1; omega
    have hxi : (2 ^ k * m).testBit i = false := by
      rw [Nat.testBit_to_div_mod]
      have h1 : 2 ^ k * m / 2 ^ i = 2 ^ (k - i) * m := by
        rw [show (2 : Nat) ^ k = 2 ^ (k - i) * 2 ^ i by rw [← pow_add]; congr 1; omega]
        rw [Nat.mul_comm (2 ^ (k - i)) (2 ^ i), Nat.mul_assoc,
          Nat.mul_div_cancel_left _ (hpos i)]
      have h2 : 2 ^ (k - i) * m % 2 = 0 := by
        rw [hsplit, Nat.mul_assoc]
        exact Nat.mul_mod_right 2 _
      rw [h1]
      simp [h2]
    have hsum : (2 ^ k * m + y).testBit i = y.testBit i := by
      rw [Nat.testBit_to_div_mod, Nat.testBit_to_div_mod]
      have h1 : (2 ^ k * m + y) / 2 ^ i = 2 ^ (k - i) * m + y / 2 ^ i := by
        rw [show (2 : Nat) ^ k = 2 ^ (k - i) * 2 ^ i by rw [← pow_add]; congr 1; omega]
        rw [Nat.mul_comm (2 ^ (k - i)) (2 ^ i), Nat.mul_assoc,
          Nat.mul_comm (2 ^ i) _, Nat.add_comm]
        rw [Nat.add_mul_div_right _ _ (hpos i), Nat.add_comm]
      have h2 : (2 ^ (k - i) * m + y / 2 ^ i) % 2 = y / 2 ^ i % 2 := by
        rw [hsplit, Nat.mul_assoc, Nat.mul_add_mod]
      rw [h1, h2]
    rw [hxi, hsum, Bool.false_or]
  · have hyi : y.testBit i = false := by
      apply Nat.testBit_lt_two_pow
      exact lt_of_lt_of_le hy (Nat.pow_le_pow_right (by norm_num) hik)
    have hsum : (2 ^ k * m + y).testBit i = (2 ^ k * m).testBit i := by
      rw [Nat.testBit_to_div_mod, Nat.testBit_to_div_mod]
      have h1 : (2 ^ k * m + y) / 2 ^ i = 2 ^ k * m / 2 ^ i := by
        rw [show (2 : Nat) ^ i = 2 ^ k * 2 ^ (i - k) by rw [← pow_add]; congr 1; omega]
        rw [← Nat.div_div_eq_div_mul, ← Nat.div_div_eq_div_mul]
        congr 1
        rw [Nat.mul_div_cancel_left m (hpos k), Nat.mul_comm (2 ^ k) m, Nat.add_comm]
        rw [Nat.add_mul_div_right _ _ (hpos k), Nat.div_eq_of_lt hy, Nat.zero_add]
      rw [h1]
    rw [hyi, hsum, Bool.or_false]

theorem and_mod256 (x : Nat) : x &&& 255 = x % 256 := by
  apply Nat.eq_of_testBit_eq
  intro i
  rw [Nat.testBit_and]
  rw [show (256 : Nat) = 2 ^ 8 by norm_num, Nat.testBit_mod_two_pow]
  rw [show (255 : Nat) = 2 ^ 8 - 1 by norm_num, Nat.testBit_two_pow_sub_one]
  rw [Bool.and_comm]

theorem and_mod16 (x : Nat) : x &&& 15 = x % 16 := by
  apply Nat.eq_of_testBit_eq
  intro i
  rw [Nat.testBit_and]
  rw [show (16 : Nat) = 2 ^ 4 by norm_num, Nat.testBit_mod_two_pow]
  rw [show (15 : Nat) = 2 ^ 4 - 1 by norm_num, Nat.testBit_two_pow_sub_one]
  rw [Bool.and_comm]

theorem shiftr_div (x k : Nat) : x >>> k = x / 2 ^ k :=
  Nat.shiftRight_eq_div_pow x k

theorem pow2_8 : (2 : Nat) ^ 8 = 256 := by norm_num

theorem pow2_16 : (2 : Nat) ^ 16 = 65536 := by norm_num

theorem pow2_24 : (2 : Nat) ^ 24 = 16777216 := by norm_num

theorem compose16 (x y : Nat) (hy : y < 256) : (x <<< 8) ||| y = 256 * x + y := by
  rw [lorDisjoint _ _ 8 (by rw [Nat.shiftLeft_eq]; exact ⟨x, by ring⟩)
    (by rw [pow2_8]; omega)]
  rw [Nat.shiftLeft_eq, pow2_8]; ring

theorem compose32 (a c d e : Nat) (hc : c < 256) (hd : d < 256) (he : e < 256) :
    (((a <<< 24) ||| (c <<< 16)) ||| (d <<< 8)) ||| e =
      ((a * 256 + c) * 256 + d) * 256 + e := by
  have s1 : (a <<< 24) ||| (c <<< 16) = a * 16777216 + c * 65536 := by
    rw [lorDisjoint _ _ 24 (by rw [Nat.shiftLeft_eq]; exact ⟨a, by ring⟩)
      (by rw [Nat.shiftLeft_eq, pow2_16, pow2_24]; omega)]
    rw [Nat.shiftLeft_eq, Nat.shiftLeft_eq, pow2_16, pow2_24]
  have s2 : (a * 16777216 + c * 65536) ||| (d <<< 8) =
      a * 16777216 + c * 65536 + d * 256 := by
    rw [lorDisjoint _ _ 16 ⟨a * 256 + c, by rw [pow2_16]; ring⟩
      (by rw [Nat.shiftLeft_eq, pow2_8, pow2_16]; omega)]
    rw [Nat.shiftLeft_eq, pow2_8]
  have s3 : (a * 16777216 + c * 65536 + d * 256) ||| e =
      a * 16777216 + c * 65536 + d * 256 + e := by
    rw [lorDisjoint _ _ 8 ⟨a * 65536 + c * 256 + d, by rw [pow2_8]; ring⟩
      (by rw [pow2_8]; omega)]
  rw [s1, s2, s3]; ring

theorem bind_ok {α β : Type} (x : DnsM α) (f : α → DnsM β) {a : α}
    {b b2 : BytePacketBuffer} (h : x b = .ok a b2) : (x >>= f) b = f a b2 := by
  show EStateM.bind x f b = f a b2
  unfold EStateM.bind
  rw [h]

theorem bind_err {α β : Type} (x : DnsM α) (f : α → DnsM β) {e : DnsError}
    {b b2 : BytePacketBuffer} (h : x b = .error e b2) : (x >>= f) b = .error e b2 := by
  show EStateM.bind x f b = _
  unfold EStateM.bind
  rw [h]

theorem pure_apply {α : Type} (a : α) (b : BytePacketBuffer) :
    (pure a : DnsM α) b = .ok a b := rfl

theorem pos_mk (f : Nat → Nat) (p : Nat) : (BytePacketBuffer.mk f p).pos = p := rfl

theorem buf_mk (f : Nat → Nat) (p : Nat) : (BytePacketBuffer.mk f p).buf = f := rfl

namespace BytePacketBuffer

theorem read_ok (b : BytePacketBuffer) (h : b.pos < 512) :
    read b = .ok (b.buf b.pos) { b with pos := b.pos + 1 } := by
  unfold read; rw [if_neg (by omega)]

theorem read_err (b : BytePacketBuffer) (h : 512 ≤ b.pos) :
    read b = .error .endOfBuffer b := by
  unfold read; rw [if_pos h]

theorem get_ok (p : Nat) (b : BytePacketBuffer) (h : p < 512) :
    get p b = .ok (b.buf p) b := by
  unfold get; rw [if_neg (by omega)]

theorem get_err (p : Nat) (b : BytePacketBuffer) (h : 512 ≤ p) :
    get p b = .error .endOfBuffer b := by
  unfold get; rw [if_pos h]

theorem get_range_ok (start len : Nat) (b : BytePacketBuffer) (h : start + len < 512) :
    get_range start len b = .ok ((List.range len).map fun i => b.buf (start + i)) b := by
  unfold get_range; rw [if_neg (by omega)]

theorem get_range_err (start len : Nat) (b : BytePacketBuffer) (h : 512 ≤ start + len) :
    get_range start len b = .error .endOfBuffer b := by
  unfold get_range; rw [if_pos h]

theorem write_ok (v : Nat) (b : BytePacketBuffer) (h : b.pos < 512) :
    write v b = .ok () ⟨setByte b.buf b.pos v, b.pos + 1⟩ := by
  unfold write; rw [if_neg (by omega)]

theorem write_err (v : Nat) (b : BytePacketBuffer) (h : 512 ≤ b.pos) :
    write v b = .error .endOfBuffer b := by
  unfold write; rw [if_pos h]

theorem read_u16_ok (b : BytePacketBuffer) (h : b.pos + 2 ≤ 512) :
    read_u16 b = .ok ((b.buf b.pos <<< 8) ||| b.buf (b.pos + 1)) { b with pos := b.pos + 2 } := by
  unfold read_u16
  rw [bind_ok _ _ (read_ok b (by omega))]
  rw [bind_ok _ _ (read_ok _ (by simp; omega))]
  rw [pure_apply]

theorem read_u16_err_last (b : BytePacketBuffer) (h : b.pos = 511) :
    read_u16 b = .error .endOfBuffer { b with pos := 512 } := by
  unfold read_u16
  rw [bind_ok _ _ (read_ok b (by omega))]
  rw [bind_err _ _ (read_err _ (by simp; omega))]
  congr 1
  simp
  omega

theorem read_u16_err (b : BytePacketBuffer) (h : 512 ≤ b.pos) :
    read_u16 b = .error .endOfBuffer b := by
  unfold read_u16
  rw [bind_err _ _ (read_err b h)]

theorem read_u32_ok (b : BytePacketBuffer) (h : b.pos + 4 ≤ 512) :
    read_u32 b = .ok
      ((((b.buf b.pos <<< 24) ||| (b.buf (b.pos + 1) <<< 16)) |||
        (b.buf (b.pos + 2) <<< 8)) ||| b.buf (b.pos + 3))
      { b with pos := b.pos + 4 } := by
  unfold read_u32
  rw [bind_ok _ _ (read_ok b (by omega))]
  rw [bind_ok _ _ (read_ok _ (by simp; omega))]
  rw [bind_ok _ _ (read_ok _ (by simp; omega))]
  rw [bind_ok _ _ (read_ok _ (by simp; omega))]
  rw [pure_apply]

theorem read_u32_err_partial (b : BytePacketBuffer) (h1 : 509 ≤ b.pos) (h2 : b.pos < 512) :
    read_u32 b = .error .endOfBuffer { b with pos := 512 } := by
  unfold read_u32
  rcases (by omega : b.pos = 509 ∨ b.pos = 510 ∨ b.pos = 511) with h | h | h
  · rw [bind_ok _ _ (read_ok b (by omega))]
    rw [bind_ok _ _ (read_ok _ (by simp; omega))]
    rw [bind_ok _ _ (read_ok _ (by simp; omega))]
    rw [bind_err _ _ (read_err _ (by simp; omega))]
    congr 1
    simp
    omega
  · rw [bind_ok _ _ (read_ok b (by omega))]
    rw [bind_ok _ _ (read_ok _ (by simp; omega))]
    rw [bind_err _ _ (read_err _ (by simp; omega))]
    congr 1
    simp
    omega
  · rw [bind_ok _ _ (read_ok b (by omega))]
    rw [bind_err _ _ (read_err _ (by simp; omega))]
    congr 1
    simp
    omega

theorem read_u32_err (b : BytePacketBuffer) (h : 512 ≤ b.pos) :
    read_u32 b = .error .endOfBuffer b := by
  unfold read_u32
  rw [bind_err _ _ (read_err b h)]

theorem write_u16_ok (v : Nat) (b : BytePacketBuffer) (h : b.pos + 2 ≤ 512) :
    write_u16 v b = .ok ()
      ⟨setByte (setByte b.buf b.pos ((v >>> 8) % 256)) (b.pos + 1) ((v &&& 0xFF) % 256),
        b.pos + 2⟩ := by
  unfold write_u16
  rw [bind_ok _ _ (write_ok _ b (by omega))]
  rw [write_ok _ _ (by simp; omega)]

theorem write_u16_err_last (v : Nat) (b : BytePacketBuffer) (h : b.pos = 511) :
    write_u16 v b = .error .endOfBuffer ⟨setByte b.buf b.pos ((v >>> 8) % 256), 512⟩ := by
  unfold write_u16
  rw [bind_ok _ _ (write_ok _ b (by omega))]
  rw [write_err _ _ (by simp; omega)]
  rw [show b.pos + 1 = 512 by omega]

theorem write_u16_err (v : Nat) (b : BytePacketBuffer) (h : 512 ≤ b.pos) :
    write_u16 v b = .error .endOfBuffer b := by
  unfold write_u16
  rw [bind_err _ _ (write_err _ b h)]

theorem write_u32_ok (v : Nat) (b : BytePacketBuffer) (h : b.pos + 4 ≤ 512) :
    write_u32 v b = .ok ()
      ⟨setByte (setByte (setByte (setByte b.buf b.pos (((v >>> 24) &&& 0xFF) % 256))
          (b.pos + 1) (((v >>> 16) &&& 0xFF) % 256))
          (b.pos + 1 + 1) (((v >>> 8) &&& 0xFF) % 256))
          (b.pos + 1 + 1 + 1) ((v &&& 0xFF) % 256),
        b.pos + 1 + 1 + 1 + 1⟩ := by
  unfold write_u32
  rw [bind_ok _ _ (write_ok _ b (by omega))]
  rw [bind_ok _ _ (write_ok _ _ (by simp; omega))]
  rw [bind_ok _ _ (write_ok _ _ (by simp; omega))]
  rw [write_ok _ _ (by simp; omega)]

theorem write_u32_err_509 (v : Nat) (b : BytePacketBuffer) (h : b.pos = 509) :
    write_u32 v b = .error .endOfBuffer
      ⟨setByte (setByte (setByte b.buf b.pos (((v >>> 24) &&& 0xFF) % 256))
          (b.pos + 1) (((v >>> 16) &&& 0xFF) % 256))
          (b.pos + 1 + 1) (((v >>> 8) &&& 0xFF) % 256),
        512⟩ := by
  unfold write_u32
  rw [bind_ok _ _ (write_ok _ b (by omega))]
  rw [bind_ok _ _ (write_ok _ _ (by simp; omega))]
  rw [bind_ok _ _ (write_ok _ _ (by simp; omega))]
  rw [write_err _ _ (by simp; omega)]
  rw [show b.pos + 1 + 1 + 1 = 512 by omega]

theorem write_u32_err_510 (v : Nat) (b : BytePacketBuffer) (h : b.pos = 510) :
    write_u32 v b = .error .endOfBuffer
      ⟨setByte (setByte b.buf b.pos (((v >>> 24) &&& 0xFF) % 256))
          (b.pos + 1) (((v >>> 16) &&& 0xFF) % 256),
        512⟩ := by
  unfold write_u32
  rw [bind_ok _ _ (write_ok _ b (by omega))]
  rw [bind_ok _ _ (write_ok _ _ (by simp; omega))]
  rw [bind_err _ _ (write_err _ _ (by simp; omega))]
  rw [show b.pos + 1 + 1 = 512 by omega]

theorem write_u32_err_511 (v : Nat) (b : BytePacketBuffer) (h : b.pos = 511) :
    write_u32 v b = .error .endOfBuffer
      ⟨setByte b.buf b.pos (((v >>> 24) &&& 0xFF) % 256), 512⟩ := by
  unfold write_u32
  rw [bind_ok _ _ (write_ok _ b (by omega))]
  rw [bind_err _ _ (write_err _ _ (by simp; omega))]
  rw [show b.pos + 1 = 512 by omega]

theorem write_u32_err (v : Nat) (b : BytePacketBuffer) (h : 512 ≤ b.pos) :
    write_u32 v b = .error .endOfBuffer b := by
  unfold write_u32
  rw [bind_err _ _ (write_err _ b h)]

end BytePacketBuffer

theorem opcodeFromU8_invalid (n : Nat) (h : ¬(n = 0 ∨ n = 1 ∨ n = 2)) :
    opcodeFromU8 n = .error (.panicked "Invalid opcode") := by
  unfold opcodeFromU8
  repeat rw [if_neg (by omega)]

theorem rcodeFromU8_invalid (n : Nat) (h : ¬n ≤ 5) :
    rcodeFromU8 n = .error (.panicked "Invalid rcode") := by
  unfold rcodeFromU8
  repeat rw [if_neg (by omega)]

theorem qtypeFromU16_invalid (n : Nat)
    (h : ¬((1 ≤ n ∧ n ≤ 16) ∨ (252 ≤ n ∧ n ≤ 255))) :
    qtypeFromU16 n = .error (.panicked "Invalid qtype") := by
  unfold qtypeFromU16
  repeat rw [if_neg (by omega)]

theorem qclassFromU16_invalid (n : Nat) (h : ¬((1 ≤ n ∧ n ≤ 4) ∨ n = 255)) :
    qclassFromU16 n = .error (.panicked "Invalid qclass") := by
  unfold qclassFromU16
  repeat rw [if_neg (by omega)]

/-- C9: get_range (the spec's peek_range) fails with the buffer-overrun
error exactly when start + len is at least 512 — a strict bound even
though the end index is exclusive — and otherwise returns the len bytes
starting at start without moving the cursor; consequently the final byte
index of any successful range is strictly below 511, so byte 511 can
never be the last byte of a successfully peeked range. -/
theorem c9_get_range_off_by_one (b : BytePacketBuffer) (start len : Nat) :
    (BytePacketBuffer.get_range start len b = .error .endOfBuffer b ↔ 512 ≤ start + len) ∧
    (start + len < 512 →
      BytePacketBuffer.get_range start len b =
        .ok ((List.range len).map fun i => b.buf (start + i)) b) ∧
    (∀ r b2, BytePacketBuffer.get_range start len b = .ok r b2 →
      0 < len → start + (len - 1) < 511) := by
  refine ⟨⟨?_, fun h => BytePacketBuffer.get_range_err _ _ _ h⟩,
    fun h => BytePacketBuffer.get_range_ok _ _ _ h, ?_⟩
  · intro he
    by_contra hlt
    rw [BytePacketBuffer.get_range_ok _ _ _ (by omega)] at he
    exact EStateM.Result.noConfusion he
  · intro r b2 hok hlen
    by_contra hge
    rw [BytePacketBuffer.get_range_err _ _ _ (by omega)] at hok
    exact EStateM.Result.noConfusion hok

/-- Witness for C9 at concrete inputs: a successful in-bounds peek and
the boundary failure at end index 512. -/
theorem c9_witness :
    (BytePacketBuffer.get_range 100 5 (bufOfList [1, 2, 3]) =
      .ok ((List.range 5).map fun i => (bufOfList [1, 2, 3]).buf (100 + i))
        (bufOfList [1, 2, 3])) ∧
    (BytePacketBuffer.get_range 510 2 (bufOfList []) =
      .error .endOfBuffer (bufOfList []) ↔ 512 ≤ 510 + 2) :=
  ⟨(c9_get_range_off_by_one (bufOfList [1, 2, 3]) 100 5).2.1 (by omega),
   (c9_get_range_off_by_one (bufOfList []) 510 2).1⟩

/-- C4 counterexample: a two-byte write starting at offset 511 fails
with the buffer-overrun error, yet it has already modified buffer byte
511 (from 0 to 1), so a failing multi-byte write does not leave the
buffer contents unchanged as the claim states. -/
theorem c4_counterexample :
    ∃ y, BytePacketBuffer.write_u16 258 { bufOfList [] with pos := 511 } =
        .error .endOfBuffer y ∧
      y.buf 511 = 1 ∧ (bufOfList []).buf 511 = 0 :=
  ⟨_, rfl, rfl, rfl⟩

/-- C4 (amended): every primitive read or write either succeeds and
advances the cursor by exactly its byte width, or fails with the
buffer-overrun error; failing reads and failing single-byte writes
leave the buffer contents unchanged, while a failing multi-byte write
has already stored exactly its leading bytes at the positions below 512
(as made explicit by the listed states) and no other position is ever
modified. -/
theorem c4_primitive_footprint (b : BytePacketBuffer) (v : Nat) :
    (b.pos < 512 →
      BytePacketBuffer.read b = .ok (b.buf b.pos) { b with pos := b.pos + 1 }) ∧
    (512 ≤ b.pos → BytePacketBuffer.read b = .error .endOfBuffer b) ∧
    (b.pos + 2 ≤ 512 →
      BytePacketBuffer.read_u16 b =
        .ok ((b.buf b.pos <<< 8) ||| b.buf (b.pos + 1)) { b with pos := b.pos + 2 }) ∧
    (b.pos = 511 →
      BytePacketBuffer.read_u16 b = .error .endOfBuffer { b with pos := 512 }) ∧
    (512 ≤ b.pos → BytePacketBuffer.read_u16 b = .error .endOfBuffer b) ∧
    (b.pos + 4 ≤ 512 →
      BytePacketBuffer.read_u32 b =
        .ok ((((b.buf b.pos <<< 24) ||| (b.buf (b.pos + 1) <<< 16)) |||
            (b.buf (b.pos + 2) <<< 8)) ||| b.buf (b.pos + 3))
          { b with pos := b.pos + 4 }) ∧
    (509 ≤ b.pos → b.pos < 512 →
      BytePacketBuffer.read_u32 b = .error .endOfBuffer { b with pos := 512 }) ∧
    (512 ≤ b.pos → BytePacketBuffer.read_u32 b = .error .endOfBuffer b) ∧
    (b.pos < 512 →
      BytePacketBuffer.write v b = .ok () ⟨setByte b.buf b.pos v, b.pos + 1⟩) ∧
    (512 ≤ b.pos → BytePacketBuffer.write v b = .error .endOfBuffer b) ∧
    (b.pos + 2 ≤ 512 →
      BytePacketBuffer.write_u16 v b = .ok ()
        ⟨setByte (setByte b.buf b.pos ((v >>> 8) % 256)) (b.pos + 1) ((v &&& 0xFF) % 256),
          b.pos + 2⟩) ∧
    (b.pos = 511 →
      BytePacketBuffer.write_u16 v b = .error .endOfBuffer
        ⟨setByte b.buf b.pos ((v >>> 8) % 256), 512⟩) ∧
    (512 ≤ b.pos → BytePacketBuffer.write_u16 v b = .error .endOfBuffer b) ∧
    (b.pos + 4 ≤ 512 →
      BytePacketBuffer.write_u32 v b = .ok ()
        ⟨setByte (setByte (setByte (setByte b.buf b.pos (((v >>> 24) &&& 0xFF) % 256))
            (b.pos + 1) (((v >>> 16) &&& 0xFF) % 256))
            (b.pos + 1 + 1) (((v >>> 8) &&& 0xFF) % 256))
            (b.pos + 1 + 1 + 1) ((v &&& 0xFF) % 256),
          b.pos + 1 + 1 + 1 + 1⟩) ∧
    (b.pos = 509 →
      BytePacketBuffer.write_u32 v b = .error .endOfBuffer
        ⟨setByte (setByte (setByte b.buf b.pos (((v >>> 24) &&& 0xFF) % 256))
            (b.pos + 1) (((v >>> 16) &&& 0xFF) % 256))
            (b.pos + 1 + 1) (((v >>> 8) &&& 0xFF) % 256),
          512⟩) ∧
    (b.pos = 510 →
      BytePacketBuffer.write_u32 v b = .error .endOfBuffer
        ⟨setByte (setByte b.buf b.pos (((v >>> 24) &&& 0xFF) % 256))
            (b.pos + 1) (((v >>> 16) &&& 0xFF) % 256),
          512⟩) ∧
    (b.pos = 511 →
      BytePacketBuffer.write_u32 v b = .error .endOfBuffer
        ⟨setByte b.buf b.pos (((v >>> 24) &&& 0xFF) % 256), 512⟩) ∧
    (512 ≤ b.pos → BytePacketBuffer.write_u32 v b = .error .endOfBuffer b) :=
  ⟨BytePacketBuffer.read_ok b, BytePacketBuffer.read_err b,
   BytePacketBuffer.read_u16_ok b, BytePacketBuffer.read_u16_err_last b,
   BytePacketBuffer.read_u16_err b, BytePacketBuffer.read_u32_ok b,
   BytePacketBuffer.read_u32_err_partial b, BytePacketBuffer.read_u32_err b,
   BytePacketBuffer.write_ok v b, BytePacketBuffer.write_err v b,
   BytePacketBuffer.write_u16_ok v b, BytePacketBuffer.write_u16_err_last v b,
   BytePacketBuffer.write_u16_err v b, BytePacketBuffer.write_u32_ok v b,
   BytePacketBuffer.write_u32_err_509 v b, BytePacketBuffer.write_u32_err_510 v b,
   BytePacketBuffer.write_u32_err_511 v b, BytePacketBuffer.write_u32_err v b⟩

/-- Witness for C4 at concrete inputs: a successful single-byte read and
the partially-written failing two-byte write at offset 511. -/
theorem c4_witness :
    (BytePacketBuffer.read (bufOfList [7]) =
      .ok 7 { bufOfList [7] with pos := 1 }) ∧
    (BytePacketBuffer.write_u16 258 { bufOfList [] with pos := 511 } =
      .error .endOfBuffer ⟨setByte (bufOfList []).buf 511 ((258 >>> 8) % 256), 512⟩) :=
  ⟨(c4_primitive_footprint (bufOfList [7]) 0).1 (by decide),
   (c4_primitive_footprint { bufOfList [] with pos := 511 } 258).2.2.2.2.2.2.2.2.2.2.2.1 (by decide)⟩

/-- C2 counterexample: on a buffer whose opcode nibble is 3 (a reserved
value), decode reaches the panicking From conversion, modelled as the
panicked error: the decode aborts by panic rather than returning a
recoverable error value, contradicting the claim as stated. -/
theorem c2_counterexample :
    ∃ e b2, Packet.from_buffer badOpcodeBuf = .error e b2 ∧ e.isPanic = true :=
  ⟨_, _, rfl, rfl⟩

/-- C2 (amended): a decoded opcode, response code, query type, or query
class outside its enumeration makes decode terminate through panic! —
modelled by the panicked error, distinct from every recoverable bail
error — with no partial message; shown for all out-of-range numeric
values of the four conversions and, end to end, on a concrete buffer
handed to Packet::from_buffer. -/
theorem c2_enum_out_of_range_panics :
    (∀ n, ¬(n = 0 ∨ n = 1 ∨ n = 2) →
      opcodeFromU8 n = .error (.panicked "Invalid opcode")) ∧
    (∀ n, ¬n ≤ 5 → rcodeFromU8 n = .error (.panicked "Invalid rcode")) ∧
    (∀ n, ¬((1 ≤ n ∧ n ≤ 16) ∨ (252 ≤ n ∧ n ≤ 255)) →
      qtypeFromU16 n = .error (.panicked "Invalid qtype")) ∧
    (∀ n, ¬((1 ≤ n ∧ n ≤ 4) ∨ n = 255) →
      qclassFromU16 n = .error (.panicked "Invalid qclass")) ∧
    (∃ b2, Packet.from_buffer badOpcodeBuf =
      .error (.panicked "Invalid opcode") b2) :=
  ⟨opcodeFromU8_invalid, rcodeFromU8_invalid, qtypeFromU16_invalid,
   qclassFromU16_invalid, ⟨_, rfl⟩⟩

/-- Witness for C2 at concrete out-of-range values. -/
theorem c2_witness :
    opcodeFromU8 3 = .error (.panicked "Invalid opcode") ∧
    qtypeFromU16 17 = .error (.panicked "Invalid qtype") :=
  ⟨c2_enum_out_of_range_panics.1 3 (by omega),
   c2_enum_out_of_range_panics.2.2.1 17 (by omega)⟩

/-- C3: the claim states that every non-A type code decodes into the
Unknown variant with the cursor advanced past the payload; the code
instead panics inside the QType From conversion for any code outside
the enumeration.  Evaluated at a record with type code 17: decode
aborts with the modelled panic instead of producing Unknown. -/
theorem c3_unknown_type_panics :
    ∃ b2, Record.read badQtypeBuf = .error (.panicked "Invalid qtype") b2 :=
  ⟨_, rfl⟩

namespace BytePacketBuffer

theorem readQnameLoop_fuel :
    ∀ (fuel pos : Nat) (jumped : Bool) (jumps : Nat) (delim acc : List Nat)
      (b : BytePacketBuffer),
      513 * (6 - jumps) + (512 - pos) + 1 ≤ fuel →
      readQnameLoop fuel pos jumped jumps delim acc b ≠ none := by
  intro fuel
  induction fuel with
  | zero =>
    intro pos jumped jumps delim acc b h
    omega
  | succ n ih =>
    intro pos jumped jumps delim acc b h
    unfold readQnameLoop
    by_cases hj : 5 < jumps
    · rw [if_pos hj]
      simp
    · rw [if_neg hj]
      by_cases hp : 512 ≤ pos
      · rw [get_err _ _ hp]
        simp
      · rw [get_ok _ _ (by omega)]
        simp only
        by_cases hptr : b.buf pos &&& 0xC0 = 0xC0
        · rw [if_pos hptr]
          by_cases hp1 : 512 ≤ pos + 1
          · cases jumped <;> simp only [Bool.not_true, Bool.not_false, if_true, if_false] <;>
              rw [get_err _ _ hp1] <;> simp
          · cases jumped <;> simp only [Bool.not_true, Bool.not_false, if_true, if_false] <;>
              rw [get_ok _ _ (by omega)] <;> simp only <;>
              exact ih _ _ _ _ _ _ (by omega)
        · rw [if_neg hptr]
          by_cases hz : b.buf pos = 0
          · rw [if_pos hz]
            simp
          · rw [if_neg hz]
            by_cases hr : 512 ≤ pos + 1 + b.buf pos
            · rw [get_range_err _ _ _ hr]
              simp
            · rw [get_range_ok _ _ _ (by omega)]
              simp only
              exact ih _ _ _ _ _ _ (by omega)

theorem readQnameLoop_jumped_buf :
    ∀ (fuel pos : Nat) (jumps : Nat) (delim acc : List Nat) (b : BytePacketBuffer)
      (s : List Nat) (b2 : BytePacketBuffer),
      readQnameLoop fuel pos true jumps delim acc b = some (.ok s b2) → b2 = b := by
  intro fuel
  induction fuel with
  | zero =>
    intro pos jumps delim acc b s b2 h
    simp [readQnameLoop] at h
  | succ n ih =>
    intro pos jumps delim acc b s b2 h
    unfold readQnameLoop at h
    by_cases hj : 5 < jumps
    · rw [if_pos hj] at h
      simp at h
    · rw [if_neg hj] at h
      by_cases hp : 512 ≤ pos
      · rw [get_err _ _ hp] at h
        simp at h
      · rw [get_ok _ _ (by omega)] at h
        simp only at h
        by_cases hptr : b.buf pos &&& 0xC0 = 0xC0
        · rw [if_pos hptr] at h
          simp only [Bool.not_true, if_false] at h
          by_cases hp1 : 512 ≤ pos + 1
          · rw [get_err _ _ hp1] at h
            simp at h
          · rw [get_ok _ _ (by omega)] at h
            simp only at h
            exact ih _ _ _ _ _ _ _ h
        · rw [if_neg hptr] at h
          by_cases hz : b.buf pos = 0
          · rw [if_pos hz] at h
            simp only [Bool.not_true, if_false, Option.some.injEq] at h
            cases h
            rfl
          · rw [if_neg hz] at h
            by_cases hr : 512 ≤ pos + 1 + b.buf pos
            · rw [get_range_err _ _ _ hr] at h
              simp at h
            · rw [get_range_ok _ _ _ (by omega)] at h
              simp only at h
              exact ih _ _ _ _ _ _ _ h

theorem readQnameLoop_unjumped_cursor :
    ∀ (fuel pos : Nat) (jumps : Nat) (delim acc : List Nat) (b : BytePacketBuffer)
      (s : List Nat) (b2 : BytePacketBuffer),
      readQnameLoop fuel pos false jumps delim acc b = some (.ok s b2) →
      (∃ z, SkipsTo b.buf pos z ∧ ¬b.buf z &&& 0xC0 = 0xC0 ∧ b.buf z = 0 ∧
        b2 = seekFn (z + 1) b) ∨
      (∃ q, SkipsTo b.buf pos q ∧ b.buf q &&& 0xC0 = 0xC0 ∧
        b2 = seekFn (q + 2) b) := by
  intro fuel
  induction fuel with
  | zero =>
    intro pos jumps delim acc b s b2 h
    simp [readQnameLoop] at h
  | succ n ih =>
    intro pos jumps delim acc b s b2 h
    unfold readQnameLoop at h
    by_cases hj : 5 < jumps
    · rw [if_pos hj] at h
      simp at h
    · rw [if_neg hj] at h
      by_cases hp : 512 ≤ pos
      · rw [get_err _ _ hp] at h
        simp at h
      · rw [get_ok _ _ (by omega)] at h
        simp only at h
        by_cases hptr : b.buf pos &&& 0xC0 = 0xC0
        · rw [if_pos hptr] at h
          simp only [Bool.not_false, if_true] at h
          by_cases hp1 : 512 ≤ pos + 1
          · rw [get_err _ _ hp1] at h
            simp at h
          · rw [get_ok _ _ (by omega)] at h
            simp only at h
            have hb2 := readQnameLoop_jumped_buf _ _ _ _ _ _ _ _ h
            right
            exact ⟨pos, SkipsTo.refl pos, hptr, hb2⟩
        · rw [if_neg hptr] at h
          by_cases hz : b.buf pos = 0
          · rw [if_pos hz] at h
            simp only [Bool.not_false, if_true, Option.some.injEq] at h
            cases h
            left
            exact ⟨pos, SkipsTo.refl pos, hptr, hz, rfl⟩
          · rw [if_neg hz] at h
            by_cases hr : 512 ≤ pos + 1 + b.buf pos
            · rw [get_range_err _ _ _ hr] at h
              simp at h
            · rw [get_range_ok _ _ _ (by omega)] at h
              simp only at h
              rcases ih _ _ _ _ _ _ _ h with ⟨z, hsk, hnp, hzz, hb2⟩ | ⟨q, hsk, hq, hb2⟩
              · exact Or.inl ⟨z, SkipsTo.step pos z hptr hz hsk, hnp, hzz, hb2⟩
              · exact Or.inr ⟨q, SkipsTo.step pos q hptr hz hsk, hq, hb2⟩

/-- C5: when read_qname succeeds, the shared cursor is finalized as
follows.  Either no compression pointer was followed: then scanning from
the start position over ordinary labels (SkipsTo) reaches the
terminating zero byte at some z and the cursor ends at z + 1, just past
it.  Or a pointer was followed: then the first pointer encountered sits
at some q reachable from the start by ordinary labels, and the cursor
ends at q + 2, two bytes past that first pointer, untouched by any
later jump.  The byte array itself is never modified. -/
theorem c5_shared_cursor_finalization (b : BytePacketBuffer) (s : List Nat)
    (b2 : BytePacketBuffer) (h : read_qname b = .ok s b2) :
    (∃ z, SkipsTo b.buf b.pos z ∧ ¬b.buf z &&& 0xC0 = 0xC0 ∧ b.buf z = 0 ∧
      b2.buf = b.buf ∧ b2.pos = z + 1) ∨
    (∃ q, SkipsTo b.buf b.pos q ∧ b.buf q &&& 0xC0 = 0xC0 ∧
      b2.buf = b.buf ∧ b2.pos = q + 2) := by
  unfold read_qname at h
  cases hl : readQnameLoop 4096 b.pos false 0 [] [] b with
  | none =>
    rw [hl] at h
    simp [Option.getD] at h
  | some r =>
    rw [hl] at h
    simp only [Option.getD] at h
    rw [h] at hl
    rcases readQnameLoop_unjumped_cursor _ _ _ _ _ _ _ _ hl with
      ⟨z, hsk, hnp, hz, hb2⟩ | ⟨q, hsk, hq, hb2⟩
    · exact Or.inl ⟨z, hsk, hnp, hz, by rw [hb2]; rfl, by rw [hb2]; rfl⟩
    · exact Or.inr ⟨q, hsk, hq, by rw [hb2]; rfl, by rw [hb2]; rfl⟩

/-- Witness for C5: decoding the name www written at position 0 (no
pointer involved) puts the cursor just past the terminating zero. -/
theorem c5_witness :
    (∃ z, SkipsTo (bufOfList [3, 119, 119, 119, 0]).buf
        (bufOfList [3, 119, 119, 119, 0]).pos z ∧
      ¬(bufOfList [3, 119, 119, 119, 0]).buf z &&& 0xC0 = 0xC0 ∧
      (bufOfList [3, 119, 119, 119, 0]).buf z = 0 ∧
      ((bufOfList [3, 119, 119, 119, 0]).buf : Nat → Nat) =
        (bufOfList [3, 119, 119, 119, 0]).buf ∧ (5 : Nat) = z + 1) ∨
    (∃ q, SkipsTo (bufOfList [3, 119, 119, 119, 0]).buf
        (bufOfList [3, 119, 119, 119, 0]).pos q ∧
      (bufOfList [3, 119, 119, 119, 0]).buf q &&& 0xC0 = 0xC0 ∧
      ((bufOfList [3, 119, 119, 119, 0]).buf : Nat → Nat) =
        (bufOfList [3, 119, 119, 119, 0]).buf ∧ (5 : Nat) = q + 2) :=
  c5_shared_cursor_finalization (bufOfList [3, 119, 119, 119, 0]) [119, 119, 119]
    ⟨(bufOfList [3, 119, 119, 119, 0]).buf, 5⟩ rfl

/-- C6: domain-name decode always terminates.  First, with any fuel of
at least 3591 the decode loop never exhausts its fuel, for every buffer
content and every loop state — in particular read_qname, which runs the
loop with fuel 4096, is a total function over all 512-byte buffers.
Second, a crafted pointer cycle (a pointer at offset 0 pointing to
offset 0) fails with the jumps-exceeded error after following more than
5 pointers, with the shared cursor two bytes past the first pointer. -/
theorem c6_qname_termination :
    (∀ (b : BytePacketBuffer) (fuel pos : Nat) (jumped : Bool) (jumps : Nat)
      (delim acc : List Nat), 3591 ≤ fuel →
      readQnameLoop fuel pos jumped jumps delim acc b ≠ none) ∧
    (∀ b : BytePacketBuffer, readQnameLoop 4096 b.pos false 0 [] [] b ≠ none) ∧
    (∃ b2, read_qname cycBuf = .error .jumpsExceeded b2 ∧ b2.pos = 2) := by
  refine ⟨?_, ?_, ⟨_, rfl, rfl⟩⟩
  · intro b fuel pos jumped jumps delim acc hf
    exact readQnameLoop_fuel fuel pos jumped jumps delim acc b (by omega)
  · intro b
    exact readQnameLoop_fuel 4096 b.pos false 0 [] [] b (by omega)

/-- Witness for C6 at a concrete loop state and fuel. -/
theorem c6_witness :
    readQnameLoop 3591 0 false 0 [] [] (bufOfList []) ≠ none :=
  c6_qname_termination.1 (bufOfList []) 3591 0 false 0 [] [] (by omega)

end BytePacketBuffer

open BytePacketBuffer

theorem HasBytes.nil (f : Nat → Nat) (p : Nat) : HasBytes f p [] := trivial

theorem HasBytes.cons {f : Nat → Nat} {p x : Nat} {xs : List Nat}
    (h1 : f p = x) (h2 : HasBytes f (p + 1) xs) : HasBytes f p (x :: xs) :=
  ⟨h1, h2⟩

theorem hasBytes_append (f : Nat → Nat) :
    ∀ (bs cs : List Nat) (p : Nat),
      HasBytes f p (bs ++ cs) ↔ HasBytes f p bs ∧ HasBytes f (p + bs.length) cs := by
  intro bs
  induction bs with
  | nil =>
    intro cs p
    constructor
    · intro h
      exact ⟨trivial, by simpa using h⟩
    · intro h
      simpa using h.2
  | cons x xs ih =>
    intro cs p
    constructor
    · intro h
      obtain ⟨h1, h2⟩ := h
      obtain ⟨h2a, h2b⟩ := (ih cs (p + 1)).1 h2
      refine ⟨⟨h1, h2a⟩, ?_⟩
      have hx : p + (x :: xs).length = p + 1 + xs.length := by simp; omega
      rw [hx]
      exact h2b
    · intro h
      obtain ⟨⟨h1, h2⟩, h3⟩ := h
      refine ⟨h1, (ih cs (p + 1)).2 ⟨h2, ?_⟩⟩
      have hx : p + 1 + xs.length = p + (x :: xs).length := by simp; omega
      rw [hx]
      exact h3

theorem hasBytes_congr {f g : Nat → Nat} :
    ∀ (bs : List Nat) (p : Nat),
      (∀ i, p ≤ i → i < p + bs.length → g i = f i) →
      HasBytes f p bs → HasBytes g p bs := by
  intro bs
  induction bs with
  | nil =>
    intro p hcong h
    trivial
  | cons x xs ih =>
    intro p hcong h
    obtain ⟨h1, h2⟩ := h
    refine ⟨?_, ih (p + 1)
      (fun i hi1 hi2 => hcong i (by omega) (by simp only [List.length_cons]; omega)) h2⟩
    rw [hcong p (by omega) (by simp only [List.length_cons]; omega)]
    exact h1

theorem Wrote.append {x y z : BytePacketBuffer} {bs cs : List Nat}
    (w1 : Wrote x y bs) (w2 : Wrote y z cs) : Wrote x z (bs ++ cs) := by
  obtain ⟨p1, bd1, lo1, hi1, has1⟩ := w1
  obtain ⟨p2, bd2, lo2, hi2, has2⟩ := w2
  refine ⟨by simp; omega, by simp; omega, ?_, ?_, ?_⟩
  · intro i hi
    rw [lo2 i (by omega), lo1 i hi]
  · intro i hi
    simp at hi
    rw [hi2 i (by omega), hi1 i (by omega)]
  · rw [hasBytes_append]
    constructor
    · exact hasBytes_congr bs x.pos (fun i hi1 hi2 => lo2 i (by omega)) has1
    · rw [show x.pos + bs.length = y.pos from by omega]
      exact has2

theorem Wrote.cast {x y : BytePacketBuffer} {bs cs : List Nat}
    (w : Wrote x y bs) (h : bs = cs) : Wrote x y cs := h ▸ w

namespace BytePacketBuffer

theorem wrote_write (v : Nat) (b : BytePacketBuffer) (h : b.pos < 512) :
    Wrote b ⟨setByte b.buf b.pos v, b.pos + 1⟩ [v] := by
  refine ⟨rfl, by simp; omega, ?_, ?_, ?_, trivial⟩
  · intro i hi
    simp [buf_mk, setByte]
    omega
  · intro i hi
    simp at hi
    simp [buf_mk, setByte]
    omega
  · simp [buf_mk, setByte]

theorem ex_write (v : Nat) (b : BytePacketBuffer) (h : b.pos < 512) :
    ∃ b2, write v b = .ok () b2 ∧ Wrote b b2 [v] :=
  ⟨_, write_ok v b h, wrote_write v b h⟩

theorem ex_write_u8 (v : Nat) (b : BytePacketBuffer) (h : b.pos < 512) :
    ∃ b2, write_u8 v b = .ok () b2 ∧ Wrote b b2 [v] :=
  ex_write v b h

theorem ex_write_u16 (v : Nat) (b : BytePacketBuffer) (h : b.pos + 2 ≤ 512) :
    ∃ b2, write_u16 v b = .ok () b2 ∧ Wrote b b2 (wireU16 v) := by
  obtain ⟨b1, h1, w1⟩ := ex_write ((v >>> 8) % 256) b (by omega)
  obtain ⟨b2, h2, w2⟩ := ex_write ((v &&& 0xFF) % 256) b1 (by have := w1.pos_eq; simp at this; omega)
  refine ⟨b2, ?_, (w1.append w2).cast (by simp [wireU16])⟩
  unfold write_u16
  rw [bind_ok _ _ h1]
  exact h2

theorem ex_write_u32 (v : Nat) (b : BytePacketBuffer) (h : b.pos + 4 ≤ 512) :
    ∃ b2, write_u32 v b = .ok () b2 ∧ Wrote b b2 (wireU32 v) := by
  obtain ⟨b1, h1, w1⟩ := ex_write (((v >>> 24) &&& 0xFF) % 256) b (by omega)
  obtain ⟨b2, h2, w2⟩ := ex_write (((v >>> 16) &&& 0xFF) % 256) b1
    (by have := w1.pos_eq; simp at this; omega)
  obtain ⟨b3, h3, w3⟩ := ex_write (((v >>> 8) &&& 0xFF) % 256) b2
    (by have := w1.pos_eq; have := w2.pos_eq; simp at *; omega)
  obtain ⟨b4, h4, w4⟩ := ex_write ((v &&& 0xFF) % 256) b3
    (by have := w1.pos_eq; have := w2.pos_eq; have := w3.pos_eq; simp at *; omega)
  refine ⟨b4, ?_, ((w1.append w2).append (w3.append w4)).cast (by simp [wireU32])⟩
  unfold write_u32
  rw [bind_ok _ _ h1, bind_ok _ _ h2, bind_ok _ _ h3]
  exact h4

theorem inv_bind {α β : Type} {x : DnsM α} {f : α → DnsM β} {b b2 : BytePacketBuffer}
    {r : β} (h : (x >>= f) b = .ok r b2) :
    ∃ a b1, x b = .ok a b1 ∧ f a b1 = .ok r b2 := by
  have hb : (x >>= f) b = EStateM.bind x f b := rfl
  rw [hb] at h
  unfold EStateM.bind at h
  cases hx : x b with
  | ok a b1 =>
    rw [hx] at h
    exact ⟨a, b1, rfl, h⟩
  | error e b1 =>
    rw [hx] at h
    exact EStateM.Result.noConfusion h

theorem inv_write {v : Nat} {b b2 : BytePacketBuffer}
    (h : write v b = .ok () b2) : Wrote b b2 [v] := by
  by_cases hp : 512 ≤ b.pos
  · rw [write_err v b hp] at h
    exact EStateM.Result.noConfusion h
  · rw [write_ok v b (by omega)] at h
    cases h
    exact wrote_write v b (by omega)

theorem inv_write_u8 {v : Nat} {b b2 : BytePacketBuffer}
    (h : write_u8 v b = .ok () b2) : Wrote b b2 [v] :=
  inv_write h

theorem inv_write_u16 {v : Nat} {b b2 : BytePacketBuffer}
    (h : write_u16 v b = .ok () b2) : Wrote b b2 (wireU16 v) := by
  unfold write_u16 at h
  obtain ⟨a, b1, h1, h2⟩ := inv_bind h
  exact ((inv_write h1).append (inv_write h2)).cast (by simp [wireU16])

theorem inv_write_u32 {v : Nat} {b b2 : BytePacketBuffer}
    (h : write_u32 v b = .ok () b2) : Wrote b b2 (wireU32 v) := by
  unfold write_u32 at h
  obtain ⟨a1, b1, h1, h⟩ := inv_bind h
  obtain ⟨a2, bb2, h2, h⟩ := inv_bind h
  obtain ⟨a3, b3, h3, h4⟩ := inv_bind h
  exact (((inv_write h1).append (inv_write h2)).append
    ((inv_write h3).append (inv_write h4))).cast (by simp [wireU32])

end BytePacketBuffer

theorem wireU16_length (v : Nat) : (wireU16 v).length = 2 := rfl

theorem wireU32_length (v : Nat) : (wireU32 v).length = 4 := rfl

theorem flagsHiVal_lt (rd t au : Bool) (op : Opcode) (rp : Bool) :
    flagsHiVal rd t au op rp < 256 := by
  cases rd <;> cases t <;> cases au <;> cases op <;> cases rp <;> decide

theorem flagsLoVal_lt (rc : RCode) (ra : Bool) : flagsLoVal rc ra < 256 := by
  cases rc <;> cases ra <;> decide

theorem flagsHi_rd (rd t au : Bool) (op : Opcode) (rp : Bool) :
    decide (0 < flagsHiVal rd t au op rp &&& (1 <<< 0)) = rd := by
  cases rd <;> cases t <;> cases au <;> cases op <;> cases rp <;> decide

theorem flagsHi_t (rd t au : Bool) (op : Opcode) (rp : Bool) :
    decide (0 < flagsHiVal rd t au op rp &&& (1 <<< 1)) = t := by
  cases rd <;> cases t <;> cases au <;> cases op <;> cases rp <;> decide

theorem flagsHi_au (rd t au : Bool) (op : Opcode) (rp : Bool) :
    decide (0 < flagsHiVal rd t au op rp &&& (1 <<< 2)) = au := by
  cases rd <;> cases t <;> cases au <;> cases op <;> cases rp <;> decide

theorem flagsHi_op (rd t au : Bool) (op : Opcode) (rp : Bool) :
    (flagsHiVal rd t au op rp >>> 3) &&& 0x0F = op.toNat := by
  cases rd <;> cases t <;> cases au <;> cases op <;> cases rp <;> decide

theorem flagsHi_rp (rd t au : Bool) (op : Opcode) (rp : Bool) :
    decide (0 < flagsHiVal rd t au op rp &&& (1 <<< 7)) = rp := by
  cases rd <;> cases t <;> cases au <;> cases op <;> cases rp <;> decide

theorem flagsLo_rc (rc : RCode) (ra : Bool) :
    flagsLoVal rc ra &&& 0x0F = rc.toNat := by
  cases rc <;> cases ra <;> decide

theorem flagsLo_ra (rc : RCode) (ra : Bool) :
    decide (0 < flagsLoVal rc ra &&& (1 <<< 7)) = ra := by
  cases rc <;> cases ra <;> decide

theorem opcodeFromU8_toNat (op : Opcode) : opcodeFromU8 op.toNat = .ok op := by
  cases op <;> rfl

theorem rcodeFromU8_toNat (rc : RCode) : rcodeFromU8 rc.toNat = .ok rc := by
  cases rc <;> rfl

theorem qtypeFromU16_toNat (q : QType) : qtypeFromU16 q.toNat = .ok q := by
  cases q <;> rfl

theorem qclassFromU16_toNat (q : QClass) : qclassFromU16 q.toNat = .ok q := by
  cases q <;> rfl

theorem liftE_ok {α : Type} (a : α) (b : BytePacketBuffer) :
    liftE (Except.ok a) b = .ok a b := rfl

theorem wire16_compose (v : Nat) (hv : v < 65536) :
    (((v >>> 8) % 256) <<< 8) ||| ((v &&& 0xFF) % 256) = v := by
  have h1 : (v >>> 8) % 256 = v / 256 := by rw [shiftr_div, pow2_8]; omega
  have h2 : (v &&& 0xFF) % 256 = v % 256 := by rw [and_mod256]; omega
  rw [h1, h2, compose16 _ _ (by omega)]
  omega

theorem split16_hi (x y : Nat) (hx : x < 256) (hy : y < 256) :
    ((x <<< 8) ||| y) >>> 8 = x := by
  rw [compose16 _ _ hy, shiftr_div, pow2_8]
  omega

theorem split16_lo (x y : Nat) (hy : y < 256) : ((x <<< 8) ||| y) &&& 0xFF = y := by
  rw [compose16 _ _ hy, and_mod256]
  omega

namespace BytePacketBuffer

theorem read_u16_has (b : BytePacketBuffer) (v : Nat) (hv : v < 65536)
    (hp : b.pos + 2 ≤ 512) (h0 : b.buf b.pos = (v >>> 8) % 256)
    (h1 : b.buf (b.pos + 1) = (v &&& 0xFF) % 256) :
    read_u16 b = .ok v { b with pos := b.pos + 2 } := by
  rw [read_u16_ok b hp, h0, h1, wire16_compose v hv]

end BytePacketBuffer

theorem header_write_eq (h : Header) :
    Header.write h = (do
      BytePacketBuffer.write_u16 h.id
      BytePacketBuffer.write_u8
        (flagsHiVal h.recursion_desired h.truncation h.authoritative h.opcode h.is_reply)
      BytePacketBuffer.write_u8 (flagsLoVal h.rcode h.recursion_available)
      BytePacketBuffer.write_u16 h.question_count
      BytePacketBuffer.write_u16 h.answer_count
      BytePacketBuffer.write_u16 h.authority_count
      BytePacketBuffer.write_u16 h.additional_count) := rfl

theorem header_write_ex (h : Header) (b : BytePacketBuffer) (hp : b.pos + 12 ≤ 512) :
    ∃ b2, Header.write h b = .ok () b2 ∧ Wrote b b2 (wireHeader h) := by
  obtain ⟨b1, h1, w1⟩ := BytePacketBuffer.ex_write_u16 h.id b (by omega)
  have p1 := w1.pos_eq
  rw [wireU16_length] at p1
  obtain ⟨b2, h2, w2⟩ := BytePacketBuffer.ex_write
    (flagsHiVal h.recursion_desired h.truncation h.authoritative h.opcode h.is_reply)
    b1 (by omega)
  have p2 := w2.pos_eq
  obtain ⟨b3, h3, w3⟩ := BytePacketBuffer.ex_write
    (flagsLoVal h.rcode h.recursion_available) b2 (by simp at p2; omega)
  have p3 := w3.pos_eq
  obtain ⟨b4, h4, w4⟩ := BytePacketBuffer.ex_write_u16 h.question_count b3
    (by simp at p2 p3; omega)
  have p4 := w4.pos_eq
  rw [wireU16_length] at p4
  obtain ⟨b5, h5, w5⟩ := BytePacketBuffer.ex_write_u16 h.answer_count b4
    (by simp at p2 p3; omega)
  have p5 := w5.pos_eq
  rw [wireU16_length] at p5
  obtain ⟨b6, h6, w6⟩ := BytePacketBuffer.ex_write_u16 h.authority_count b5
    (by simp at p2 p3; omega)
  have p6 := w6.pos_eq
  rw [wireU16_length] at p6
  obtain ⟨b7, h7, w7⟩ := BytePacketBuffer.ex_write_u16 h.additional_count b6
    (by simp at p2 p3; omega)
  refine ⟨b7, ?_, ?_⟩
  · have h2w : BytePacketBuffer.write_u8
        (flagsHiVal h.recursion_desired h.truncation h.authoritative h.opcode h.is_reply) b1 =
        .ok () b2 := h2
    have h3w : BytePacketBuffer.write_u8 (flagsLoVal h.rcode h.recursion_available) b2 =
        .ok () b3 := h3
    rw [header_write_eq]
    rw [bind_ok _ _ h1, bind_ok _ _ h2w, bind_ok _ _ h3w, bind_ok _ _ h4,
      bind_ok _ _ h5, bind_ok _ _ h6]
    exact h7
  · have w := (w1.append (w2.append (w3.append (w4.append (w5.append (w6.append w7))))))
    refine w.cast ?_
    simp [wireHeader, wireU16]

theorem bind_liftE_ok {α β : Type} (a : α) (f : α → DnsM β) (b : BytePacketBuffer) :
    (liftE (Except.ok a) >>= f) b = f a b := rfl

namespace BytePacketBuffer

theorem read_u16_pair (b : BytePacketBuffer) (x y : Nat)
    (hp : b.pos + 2 ≤ 512) (h0 : b.buf b.pos = x) (h1 : b.buf (b.pos + 1) = y) :
    read_u16 b = .ok ((x <<< 8) ||| y) { b with pos := b.pos + 2 } := by
  rw [read_u16_ok b hp, h0, h1]

end BytePacketBuffer

theorem header_read_wire (h : Header) (b : BytePacketBuffer)
    (hid : h.id < 65536) (hqc : h.question_count < 65536) (hac : h.answer_count < 65536)
    (hauc : h.authority_count < 65536) (hadc : h.additional_count < 65536)
    (hp : b.pos + 12 ≤ 512) (hh : HasBytes b.buf b.pos (wireHeader h)) :
    Header.read b = .ok h { b with pos := b.pos + 12 } := by
  simp only [wireHeader, wireU16, List.cons_append, List.nil_append, HasBytes, and_true] at hh
  obtain ⟨e0, e1, e2, e3, e4, e5, e6, e7, e8, e9, e10, e11⟩ := hh
  unfold Header.read
  rw [bind_ok _ _ (BytePacketBuffer.read_u16_has b h.id hid (by omega) e0 e1)]
  rw [bind_ok _ _ (BytePacketBuffer.read_u16_pair { b with pos := b.pos + 2 }
    (flagsHiVal h.recursion_desired h.truncation h.authoritative h.opcode h.is_reply)
    (flagsLoVal h.rcode h.recursion_available)
    (by show b.pos + 2 + 2 ≤ 512; omega) e2 e3)]
  have s_hi : ((flagsHiVal h.recursion_desired h.truncation h.authoritative h.opcode
        h.is_reply <<< 8) ||| flagsLoVal h.rcode h.recursion_available) >>> 8 =
      flagsHiVal h.recursion_desired h.truncation h.authoritative h.opcode h.is_reply :=
    split16_hi _ _ (flagsHiVal_lt _ _ _ _ _) (flagsLoVal_lt _ _)
  have s_lo : ((flagsHiVal h.recursion_desired h.truncation h.authoritative h.opcode
        h.is_reply <<< 8) ||| flagsLoVal h.rcode h.recursion_available) &&& 0xFF =
      flagsLoVal h.rcode h.recursion_available :=
    split16_lo _ _ (flagsLoVal_lt _ _)
  simp only [s_hi, s_lo, flagsHi_rd, flagsHi_t, flagsHi_au, flagsHi_op, flagsHi_rp,
    flagsLo_rc, flagsLo_ra, opcodeFromU8_toNat, rcodeFromU8_toNat, bind_liftE_ok]
  rw [bind_ok _ _ (BytePacketBuffer.read_u16_has { b with pos := b.pos + 2 + 2 }
    h.question_count hqc (by show b.pos + 2 + 2 + 2 ≤ 512; omega) e4 e5)]
  rw [bind_ok _ _ (BytePacketBuffer.read_u16_has { b with pos := b.pos + 2 + 2 + 2 }
    h.answer_count hac (by show b.pos + 2 + 2 + 2 + 2 ≤ 512; omega) e6 e7)]
  rw [bind_ok _ _ (BytePacketBuffer.read_u16_has { b with pos := b.pos + 2 + 2 + 2 + 2 }
    h.authority_count hauc (by show b.pos + 2 + 2 + 2 + 2 + 2 ≤ 512; omega) e8 e9)]
  rw [bind_ok _ _ (BytePacketBuffer.read_u16_has { b with pos := b.pos + 2 + 2 + 2 + 2 + 2 }
    h.additional_count hadc (by show b.pos + 2 + 2 + 2 + 2 + 2 + 2 ≤ 512; omega) e10 e11)]
  rw [pure_apply]

/-- C7: header encode is the exact inverse of header decode.  For every
Header (opcode and rcode are valid enumeration values by construction of
the embedded enums; the five u16 fields are bounded as in Rust), writing
the 12 header bytes into a fresh buffer succeeds, and reading back from
position 0 returns an equal Header with the cursor at 12. -/
theorem c7_header_roundtrip (h : Header) (hid : h.id < 65536)
    (hqc : h.question_count < 65536) (hac : h.answer_count < 65536)
    (hauc : h.authority_count < 65536) (hadc : h.additional_count < 65536) :
    ∃ b1, Header.write h BytePacketBuffer.new = .ok () b1 ∧
      Header.read { b1 with pos := 0 } = .ok h { b1 with pos := 12 } := by
  obtain ⟨b1, hw, w⟩ := header_write_ex h BytePacketBuffer.new
    (by show (0 : Nat) + 12 ≤ 512; omega)
  refine ⟨b1, hw, ?_⟩
  have hr := header_read_wire h { b1 with pos := 0 } hid hqc hac hauc hadc
    (by show (0 : Nat) + 12 ≤ 512; omega) w.has
  exact hr

/-- Witness for C7 at a concrete header with every flag field set. -/
theorem c7_witness :
    ∃ b1, Header.write
      { id := 258, is_reply := true, opcode := .STATUS, authoritative := true,
        truncation := false, recursion_desired := true, recursion_available := true,
        rcode := .Refused, question_count := 7, answer_count := 3,
        authority_count := 0, additional_count := 0 } BytePacketBuffer.new = .ok () b1 ∧
      Header.read { b1 with pos := 0 } = .ok
        { id := 258, is_reply := true, opcode := .STATUS, authoritative := true,
          truncation := false, recursion_desired := true, recursion_available := true,
          rcode := .Refused, question_count := 7, answer_count := 3,
          authority_count := 0, additional_count := 0 } { b1 with pos := 12 } :=
  c7_header_roundtrip _ (by decide) (by decide) (by decide) (by decide) (by decide)

theorem wrote_nil (b : BytePacketBuffer) (h : b.pos ≤ 512) : Wrote b b [] :=
  ⟨by simp, by simp; omega, fun i _ => rfl, fun i _ => rfl, trivial⟩

namespace BytePacketBuffer

theorem ex_writeBytes :
    ∀ (l : List Nat) (b : BytePacketBuffer), b.pos + l.length ≤ 512 →
      ∃ b2, writeBytes l b = .ok () b2 ∧ Wrote b b2 l := by
  intro l
  induction l with
  | nil =>
    intro b h
    exact ⟨b, pure_apply () b, wrote_nil b (by simpa using h)⟩
  | cons x xs ih =>
    intro b h
    simp only [List.length_cons] at h
    obtain ⟨b1, h1, w1⟩ := ex_write x b (by omega)
    have p1 := w1.pos_eq
    simp only [List.length_singleton] at p1
    obtain ⟨b2, h2, w2⟩ := ih b1 (by omega)
    refine ⟨b2, ?_, (w1.append w2).cast (by simp)⟩
    show (write_u8 x >>= fun _ => writeBytes xs) b = _
    rw [bind_ok _ _ (show write_u8 x b = .ok () b1 from h1)]
    exact h2

theorem ex_writeLabels :
    ∀ (ls : List (List Nat)) (b : BytePacketBuffer),
      (∀ l ∈ ls, l.length ≤ 63) → b.pos + (wireLabels ls).length ≤ 512 →
      ∃ b2, writeLabels ls b = .ok () b2 ∧ Wrote b b2 (wireLabels ls) := by
  intro ls
  induction ls with
  | nil =>
    intro b hl h
    exact ⟨b, pure_apply () b, wrote_nil b (by simpa [wireLabels] using h)⟩
  | cons l rest ih =>
    intro b hl h
    simp only [wireLabels, wireLabel, List.length_append, List.length_cons] at h
    obtain ⟨b1, h1, w1⟩ := ex_write l.length b (by omega)
    have p1 := w1.pos_eq
    simp only [List.length_singleton] at p1
    obtain ⟨b2, h2, w2⟩ := ex_writeBytes l b1 (by omega)
    have p2 := w2.pos_eq
    obtain ⟨b3, h3, w3⟩ := ih b2 (fun x hx => hl x (List.mem_cons_of_mem _ hx))
      (by omega)
    refine ⟨b3, ?_, ((w1.append w2).append w3).cast
      (by simp [wireLabels, wireLabel])⟩
    show (if 0x3F < l.length then (fun b => .error .labelTooLong b : DnsM Unit)
      else write_u8 l.length >>= fun _ => writeBytes l >>= fun _ => writeLabels rest) b = _
    rw [if_neg (by have := hl l (List.mem_cons_self l rest); omega)]
    show (write_u8 l.length >>= fun _ => writeBytes l >>= fun _ => writeLabels rest) b = _
    rw [bind_ok _ _ (show write_u8 l.length b = .ok () b1 from h1)]
    rw [bind_ok _ _ h2]
    exact h3

theorem ex_write_qname (n : List Nat) (b : BytePacketBuffer)
    (hl : ∀ l ∈ splitDots n, l.length ≤ 63)
    (hp : b.pos + (wireName n).length ≤ 512) :
    ∃ b2, write_qname n b = .ok () b2 ∧ Wrote b b2 (wireName n) := by
  have hlen : (wireName n).length = (wireLabels (splitDots n)).length + 1 := by
    simp [wireName]
  obtain ⟨b1, h1, w1⟩ := ex_writeLabels (splitDots n) b hl (by omega)
  have p1 := w1.pos_eq
  obtain ⟨b2, h2, w2⟩ := ex_write 0 b1 (by omega)
  refine ⟨b2, ?_, (w1.append w2).cast (by simp [wireName])⟩
  show (writeLabels (splitDots n) >>= fun _ => write_u8 0) b = _
  rw [bind_ok _ _ h1]
  exact h2

/-- C10: write_qname writes one length-prefixed fragment for every
dot-separated piece of the name, empty pieces included: whenever every
piece is at most 63 bytes and the encoding fits the buffer, it succeeds,
storing exactly the bytes wireName n and advancing the cursor by their
count; wireName of the empty name is exactly [0, 0] (a zero-length label
then the terminator, two bytes), and wireName of a name with two
consecutive dots embeds a zero-length label in the middle instead of
failing. -/
theorem c10_write_qname_pieces (n : List Nat) (b : BytePacketBuffer)
    (hl : ∀ l ∈ splitDots n, l.length ≤ 63)
    (hp : b.pos + (wireName n).length ≤ 512) :
    (∃ b2, write_qname n b = .ok () b2 ∧ Wrote b b2 (wireName n)) ∧
    wireName [] = [0, 0] ∧
    wireName [97, 46, 46, 98] = [1, 97, 0, 1, 98, 0] :=
  ⟨ex_write_qname n b hl hp, by decide, by decide⟩

/-- Witness for C10: the empty name written into a fresh buffer. -/
theorem c10_witness :
    (∃ b2, write_qname [] BytePacketBuffer.new = .ok () b2 ∧
      Wrote BytePacketBuffer.new b2 (wireName [])) ∧
    wireName [] = [0, 0] ∧
    wireName [97, 46, 46, 98] = [1, 97, 0, 1, 98, 0] :=
  c10_write_qname_pieces [] BytePacketBuffer.new (by decide) (by decide)

end BytePacketBuffer

theorem readQuestions_length :
    ∀ (n : Nat) (b : BytePacketBuffer) (qs : List Question) (b2 : BytePacketBuffer),
      readQuestions n b = .ok qs b2 → qs.length = n := by
  intro n
  induction n with
  | zero =>
    intro b qs b2 h
    rw [show readQuestions 0 = pure [] from rfl, pure_apply] at h
    cases h
    rfl
  | succ m ih =>
    intro b qs b2 h
    obtain ⟨q, b1, h1, h⟩ := inv_bind h
    obtain ⟨rest, br, h2, h⟩ := inv_bind h
    rw [pure_apply] at h
    cases h
    simp [ih _ _ _ h2]

theorem readRecords_length :
    ∀ (n : Nat) (b : BytePacketBuffer) (rs : List Record) (b2 : BytePacketBuffer),
      readRecords n b = .ok rs b2 → rs.length = n := by
  intro n
  induction n with
  | zero =>
    intro b rs b2 h
    rw [show readRecords 0 = pure [] from rfl, pure_apply] at h
    cases h
    rfl
  | succ m ih =>
    intro b rs b2 h
    obtain ⟨r, b1, h1, h⟩ := inv_bind h
    obtain ⟨rest, br, h2, h⟩ := inv_bind h
    rw [pure_apply] at h
    cases h
    simp [ih _ _ _ h2]

/-- C8: whenever Packet::from_buffer succeeds, the returned message
holds exactly header.question_count questions and exactly
header.answer_count answers, decoded in wire order after the header (the
definition decodes the header, then that many questions, then that many
answers, appending in order); on any sub-decode failure the result is an
error carrying no message, so no partial message is ever returned. -/
theorem c8_decode_counts (b : BytePacketBuffer) (p : Packet) (b2 : BytePacketBuffer)
    (h : Packet.from_buffer b = .ok p b2) :
    p.questions.length = p.header.question_count ∧
      p.answers.length = p.header.answer_count := by
  unfold Packet.from_buffer at h
  obtain ⟨hd, b1, h1, h⟩ := inv_bind h
  obtain ⟨qs, bq, h2, h⟩ := inv_bind h
  obtain ⟨rs, br, h3, h⟩ := inv_bind h
  rw [pure_apply] at h
  cases h
  exact ⟨readQuestions_length _ _ _ _ h2, readRecords_length _ _ _ _ h3⟩

/-- Witness for C8: the all-zero buffer decodes to the empty reply whose
counts are both zero. -/
theorem c8_witness :
    (Packet.mk
      { id := 0, is_reply := false, opcode := .QUERY, authoritative := false,
        truncation := false, recursion_desired := false, recursion_available := false,
        rcode := .NoError, question_count := 0, answer_count := 0,
        authority_count := 0, additional_count := 0 } [] []).questions.length =
      (Packet.mk
        { id := 0, is_reply := false, opcode := .QUERY, authoritative := false,
          truncation := false, recursion_desired := false, recursion_available := false,
          rcode := .NoError, question_count := 0, answer_count := 0,
          authority_count := 0, additional_count := 0 } [] []).header.question_count ∧
    (Packet.mk
      { id := 0, is_reply := false, opcode := .QUERY, authoritative := false,
        truncation := false, recursion_desired := false, recursion_available := false,
        rcode := .NoError, question_count := 0, answer_count := 0,
        authority_count := 0, additional_count := 0 } [] []).answers.length =
      (Packet.mk
        { id := 0, is_reply := false, opcode := .QUERY, authoritative := false,
          truncation := false, recursion_desired := false, recursion_available := false,
          rcode := .NoError, question_count := 0, answer_count := 0,
          authority_count := 0, additional_count := 0 } [] []).header.answer_count :=
  c8_decode_counts (bufOfList []) _ ⟨(bufOfList []).buf, 12⟩ rfl

theorem hasBytes_range {f : Nat → Nat} :
    ∀ (l : List Nat) (p : Nat), HasBytes f p l →
      ((List.range l.length).map fun i => f (p + i)) = l := by
  intro l
  induction l with
  | nil =>
    intro p h
    simp
  | cons x xs ih =>
    intro p h
    obtain ⟨h1, h2⟩ := h
    have htail := ih (p + 1) h2
    rw [List.length_cons, List.range_succ_eq_map, List.map_cons, List.map_map]
    have hcomp : ((fun i => f (p + i)) ∘ Nat.succ) = fun i => f (p + 1 + i) := by
      funext i
      simp only [Function.comp]
      congr 1
      omega
    rw [hcomp, htail]
    show f (p + 0) :: xs = x :: xs
    rw [Nat.add_zero, h1]

theorem map_asciiToLower_id :
    ∀ (l : List Nat), (∀ x ∈ l, ¬(65 ≤ x ∧ x ≤ 90)) →
      l.map BytePacketBuffer.asciiToLower = l := by
  intro l
  induction l with
  | nil =>
    intro h
    rfl
  | cons x xs ih =>
    intro h
    simp only [List.map_cons]
    congr 1
    · unfold BytePacketBuffer.asciiToLower
      rw [if_neg (h x (List.mem_cons_self x xs))]
    · exact ih fun y hy => h y (List.mem_cons_of_mem x hy)

theorem splitDots_ne_nil : ∀ (n : List Nat), splitDots n ≠ [] := by
  intro n
  cases n with
  | nil => simp [splitDots]
  | cons x rest =>
    show (match splitDots rest with
      | [] => [[]]
      | l :: ls => if x = 46 then [] :: l :: ls else (x :: l) :: ls) ≠ []
    cases splitDots rest with
    | nil => simp
    | cons l ls =>
      by_cases hx : x = 46
      · simp [hx]
      · simp [hx]

theorem splitDots_join : ∀ (n : List Nat), joinDelim [] (splitDots n) = n := by
  intro n
  induction n with
  | nil => rfl
  | cons x rest ih =>
    cases hs : splitDots rest with
    | nil => exact absurd hs (splitDots_ne_nil rest)
    | cons l ls =>
      rw [hs] at ih
      have hstep : splitDots (x :: rest) =
          if x = 46 then [] :: l :: ls else (x :: l) :: ls := by
        unfold splitDots
        rw [hs]
      by_cases hx : x = 46
      · rw [hstep, if_pos hx]
        subst hx
        rw [← ih]
        simp [joinDelim]
      · rw [hstep, if_neg hx]
        rw [← ih]
        simp [joinDelim]

theorem length_le_wireLabels :
    ∀ (ls : List (List Nat)), ls.length ≤ (wireLabels ls).length := by
  intro ls
  induction ls with
  | nil => simp [wireLabels]
  | cons l rest ih =>
    simp only [wireLabels, wireLabel, List.length_append, List.length_cons]
    omega

theorem small_and_C0 (x : Nat) (h : x < 64) : x &&& 0xC0 = 0 := by
  have hd : ∀ y : Nat, y < 64 → y &&& 0xC0 = 0 := by decide
  exact hd x h

theorem qtype_toNat_lt (q : QType) : q.toNat < 65536 := by
  cases q <;> decide

theorem qclass_toNat_lt (q : QClass) : q.toNat < 65536 := by
  cases q <;> decide

theorem wireHeader_length (h : Header) : (wireHeader h).length = 12 := rfl

theorem wireName_length (n : List Nat) :
    (wireName n).length = (wireLabels (splitDots n)).length + 1 := by
  simp [wireName]

theorem wire32_compose (v : Nat) (hv : v < 4294967296) :
    ((((((v >>> 24) &&& 0xFF) % 256) <<< 24) ||| ((((v >>> 16) &&& 0xFF) % 256) <<< 16)) |||
      ((((v >>> 8) &&& 0xFF) % 256) <<< 8)) ||| ((v &&& 0xFF) % 256) = v := by
  have e24 : ((v >>> 24) &&& 0xFF) % 256 = v / 16777216 % 256 := by
    rw [and_mod256, shiftr_div, pow2_24]
    omega
  have e16 : ((v >>> 16) &&& 0xFF) % 256 = v / 65536 % 256 := by
    rw [and_mod256, shiftr_div, pow2_16]
    omega
  have e8 : ((v >>> 8) &&& 0xFF) % 256 = v / 256 % 256 := by
    rw [and_mod256, shiftr_div, pow2_8]
    omega
  have e0 : (v &&& 0xFF) % 256 = v % 256 := by
    rw [and_mod256]
    omega
  rw [e24, e16, e8, e0, compose32 _ _ _ _ (by omega) (by omega) (by omega)]
  omega

theorem ipv4_octet0 (o0 o1 o2 o3 : Nat) (h0 : o0 < 256) (h1 : o1 < 256)
    (h2 : o2 < 256) (h3 : o3 < 256) :
    ((((o0 * 256 + o1) * 256 + o2) * 256 + o3) >>> 24) &&& 0xFF = o0 := by
  rw [and_mod256, shiftr_div, pow2_24]
  omega

theorem ipv4_octet1 (o0 o1 o2 o3 : Nat) (h0 : o0 < 256) (h1 : o1 < 256)
    (h2 : o2 < 256) (h3 : o3 < 256) :
    ((((o0 * 256 + o1) * 256 + o2) * 256 + o3) >>> 16) &&& 0xFF = o1 := by
  rw [and_mod256, shiftr_div, pow2_16]
  omega

theorem ipv4_octet2 (o0 o1 o2 o3 : Nat) (h0 : o0 < 256) (h1 : o1 < 256)
    (h2 : o2 < 256) (h3 : o3 < 256) :
    ((((o0 * 256 + o1) * 256 + o2) * 256 + o3) >>> 8) &&& 0xFF = o2 := by
  rw [and_mod256, shiftr_div, pow2_8]
  omega

theorem ipv4_octet3 (o0 o1 o2 o3 : Nat) (h0 : o0 < 256) (h1 : o1 < 256)
    (h2 : o2 < 256) (h3 : o3 < 256) :
    (((o0 * 256 + o1) * 256 + o2) * 256 + o3) &&& 0xFF = o3 := by
  rw [and_mod256]
  omega

namespace BytePacketBuffer

theorem readQnameLoop_wire :
    ∀ (ls : List (List Nat)) (pos : Nat) (delim acc : List Nat)
      (b : BytePacketBuffer) (fuel : Nat),
      (∀ l ∈ ls, GoodLabel l) →
      HasBytes b.buf pos (wireLabels ls ++ [0]) →
      pos + (wireLabels ls).length + 1 ≤ 512 →
      ls.length + 1 ≤ fuel →
      readQnameLoop fuel pos false 0 delim acc b =
        some (.ok (acc ++ joinDelim delim ls)
          (seekFn (pos + (wireLabels ls).length + 1) b)) := by
  intro ls
  induction ls with
  | nil =>
    intro pos delim acc b fuel hg hh hp hf
    obtain ⟨e0, -⟩ := hh
    cases fuel with
    | zero => omega
    | succ f =>
      unfold readQnameLoop
      rw [if_neg (by omega)]
      rw [get_ok pos b (by simp [wireLabels] at hp; omega)]
      simp only
      rw [e0]
      rw [if_neg (by decide)]
      rw [if_pos rfl]
      simp [joinDelim, wireLabels]
  | cons l rest ih =>
    intro pos delim acc b fuel hg hh hp hf
    have hlen2 : (wireLabels (l :: rest)).length =
        1 + l.length + (wireLabels rest).length := by
      simp [wireLabels, wireLabel]
      omega
    obtain ⟨hne, hlen, hbytes⟩ := hg l (List.mem_cons_self l rest)
    simp only [wireLabels, wireLabel, List.cons_append, List.append_assoc] at hh
    obtain ⟨e0, hrest⟩ := hh
    rw [hasBytes_append] at hrest
    obtain ⟨hlab, htail⟩ := hrest
    cases fuel with
    | zero => omega
    | succ f =>
      simp only [List.length_cons] at hf
      unfold readQnameLoop
      rw [if_neg (by omega)]
      rw [get_ok pos b (by omega)]
      simp only
      rw [e0]
      rw [if_neg (by rw [small_and_C0 l.length (by omega)]; decide)]
      rw [if_neg (by rw [List.length_eq_zero]; exact hne)]
      rw [get_range_ok _ _ _ (by omega)]
      simp only
      rw [hasBytes_range l (pos + 1) hlab]
      rw [map_asciiToLower_id l (fun x hx => (hbytes x hx).2)]
      rw [ih (pos + 1 + l.length) [46] (acc ++ delim ++ l) b f
        (fun x hx => hg x (List.mem_cons_of_mem l hx)) htail (by omega) (by omega)]
      have hpos : pos + 1 + l.length + (wireLabels rest).length + 1 =
          pos + (wireLabels (l :: rest)).length + 1 := by
        rw [hlen2]
        omega
      rw [hpos]
      have hacc : acc ++ delim ++ l ++ joinDelim [46] rest =
          acc ++ joinDelim delim (l :: rest) := by
        simp [joinDelim, List.append_assoc]
      rw [hacc]

theorem read_qname_wire (b : BytePacketBuffer) (n : List Nat) (hg : GoodName n)
    (hh : HasBytes b.buf b.pos (wireName n))
    (hp : b.pos + (wireName n).length ≤ 512) :
    read_qname b = .ok n { b with pos := b.pos + (wireName n).length } := by
  have hlen := wireName_length n
  have hc := length_le_wireLabels (splitDots n)
  have hloop := readQnameLoop_wire (splitDots n) b.pos [] [] b 4096 hg
    (by simpa [wireName] using hh) (by omega) (by omega)
  unfold read_qname
  rw [hloop]
  simp only [Option.getD]
  rw [List.nil_append, splitDots_join]
  rw [show b.pos + (wireName n).length =
    b.pos + (wireLabels (splitDots n)).length + 1 from by omega]
  rfl

end BytePacketBuffer

namespace BytePacketBuffer

theorem read_u32_has (b : BytePacketBuffer) (v : Nat) (hv : v < 4294967296)
    (hp : b.pos + 4 ≤ 512)
    (e0 : b.buf b.pos = ((v >>> 24) &&& 0xFF) % 256)
    (e1 : b.buf (b.pos + 1) = ((v >>> 16) &&& 0xFF) % 256)
    (e2 : b.buf (b.pos + 2) = ((v >>> 8) &&& 0xFF) % 256)
    (e3 : b.buf (b.pos + 3) = (v &&& 0xFF) % 256) :
    read_u32 b = .ok v { b with pos := b.pos + 4 } := by
  rw [read_u32_ok b hp, e0, e1, e2, e3, wire32_compose v hv]

theorem read_u32_octets (b : BytePacketBuffer) (o0 o1 o2 o3 : Nat)
    (hp : b.pos + 4 ≤ 512)
    (e0 : b.buf b.pos = o0) (e1 : b.buf (b.pos + 1) = o1)
    (e2 : b.buf (b.pos + 2) = o2) (e3 : b.buf (b.pos + 3) = o3)
    (h0 : o0 < 256) (h1 : o1 < 256) (h2 : o2 < 256) (h3 : o3 < 256) :
    read_u32 b = .ok (((o0 * 256 + o1) * 256 + o2) * 256 + o3)
      { b with pos := b.pos + 4 } := by
  rw [read_u32_ok b hp, e0, e1, e2, e3, compose32 _ _ _ _ h1 h2 h3]

end BytePacketBuffer

theorem question_read_wire (q : Question) (b : BytePacketBuffer)
    (hg : GoodName q.name)
    (hh : HasBytes b.buf b.pos (wireQuestion q))
    (hp : b.pos + (wireQuestion q).length ≤ 512) :
    Question.read b = .ok q { b with pos := b.pos + (wireQuestion q).length } := by
  have hql : (wireQuestion q).length = (wireName q.name).length + 4 := by
    simp [wireQuestion, wireU16]
  simp only [wireQuestion, List.append_assoc] at hh
  rw [hasBytes_append] at hh
  obtain ⟨hname, hrest⟩ := hh
  rw [hasBytes_append] at hrest
  obtain ⟨hqt, hqc⟩ := hrest
  simp only [wireU16, HasBytes, and_true, wireU16_length] at hqt hqc
  obtain ⟨t0, t1⟩ := hqt
  obtain ⟨c0, c1⟩ := hqc
  unfold Question.read
  rw [bind_ok _ _ (BytePacketBuffer.read_qname_wire b q.name hg hname (by omega))]
  have hq16 : (BytePacketBuffer.read_u16 >>= fun n => liftE (qtypeFromU16 n))
      { b with pos := b.pos + (wireName q.name).length } =
      .ok q.qtype { b with pos := b.pos + (wireName q.name).length + 2 } := by
    rw [bind_ok _ _ (BytePacketBuffer.read_u16_has
      { b with pos := b.pos + (wireName q.name).length } q.qtype.toNat
      (qtype_toNat_lt q.qtype) (by simp; omega) t0 t1)]
    rw [qtypeFromU16_toNat]
    rfl
  rw [bind_ok _ _ hq16]
  have hc16 : (BytePacketBuffer.read_u16 >>= fun n => liftE (qclassFromU16 n))
      { b with pos := b.pos + (wireName q.name).length + 2 } =
      .ok q.qclass { b with pos := b.pos + (wireName q.name).length + 2 + 2 } := by
    rw [bind_ok _ _ (BytePacketBuffer.read_u16_has
      { b with pos := b.pos + (wireName q.name).length + 2 } q.qclass.toNat
      (qclass_toNat_lt q.qclass) (by simp; omega) c0 c1)]
    rw [qclassFromU16_toNat]
    rfl
  rw [bind_ok _ _ hc16]
  rw [pure_apply]
  rw [show b.pos + (wireQuestion q).length =
    b.pos + (wireName q.name).length + 2 + 2 from by omega]

theorem record_read_wireA (d : List Nat) (a : Ipv4Addr) (t : Nat)
    (b : BytePacketBuffer) (hg : GoodName d)
    (h0 : a.o0 < 256) (h1 : a.o1 < 256) (h2 : a.o2 < 256) (h3 : a.o3 < 256)
    (ht : t < 4294967296)
    (hh : HasBytes b.buf b.pos (wireRecordA d a t))
    (hp : b.pos + (wireRecordA d a t).length ≤ 512) :
    Record.read b = .ok (Record.A d a t)
      { b with pos := b.pos + (wireRecordA d a t).length } := by
  have hrl : (wireRecordA d a t).length = (wireName d).length + 14 := by
    simp [wireRecordA, wireU16, wireU32]
  simp only [wireRecordA, List.append_assoc] at hh
  rw [hasBytes_append] at hh
  obtain ⟨hname, hrest⟩ := hh
  rw [hasBytes_append] at hrest
  obtain ⟨hty, hrest⟩ := hrest
  rw [hasBytes_append] at hrest
  obtain ⟨hcl, hrest⟩ := hrest
  rw [hasBytes_append] at hrest
  obtain ⟨httl, hrest⟩ := hrest
  rw [hasBytes_append] at hrest
  obtain ⟨hdl, hoct⟩ := hrest
  simp only [wireU16, wireU32, HasBytes, and_true, wireU16_length, wireU32_length,
    List.length_append] at hty hcl httl hdl hoct
  obtain ⟨t0, t1⟩ := hty
  obtain ⟨c0, c1⟩ := hcl
  obtain ⟨u0, u1, u2, u3⟩ := httl
  obtain ⟨l0, l1⟩ := hdl
  obtain ⟨o0, o1, o2, o3⟩ := hoct
  unfold Record.read
  rw [bind_ok _ _ (BytePacketBuffer.read_qname_wire b d hg hname (by omega))]
  rw [bind_ok _ _ (BytePacketBuffer.read_u16_has
    { b with pos := b.pos + (wireName d).length } QType.A.toNat
    (qtype_toNat_lt _) (by simp; omega) t0 t1)]
  rw [qtypeFromU16_toNat, bind_liftE_ok]
  rw [bind_ok _ _ (BytePacketBuffer.read_u16_has
    { b with pos := b.pos + (wireName d).length + 2 } 1
    (by omega) (by simp; omega) c0 c1)]
  rw [bind_ok _ _ (BytePacketBuffer.read_u32_has
    { b with pos := b.pos + (wireName d).length + 2 + 2 } t ht
    (by simp; omega) u0 u1 u2 u3)]
  rw [bind_ok _ _ (BytePacketBuffer.read_u16_has
    { b with pos := b.pos + (wireName d).length + 2 + 2 + 4 } 4
    (by omega) (by simp; omega) l0 l1)]
  show (BytePacketBuffer.read_u32 >>= fun raw_addr =>
    pure (Record.A d ⟨(raw_addr >>> 24) &&& 0xFF, (raw_addr >>> 16) &&& 0xFF,
      (raw_addr >>> 8) &&& 0xFF, raw_addr &&& 0xFF⟩ t)) _ = _
  rw [bind_ok _ _ (BytePacketBuffer.read_u32_octets
    { b with pos := b.pos + (wireName d).length + 2 + 2 + 4 + 2 } a.o0 a.o1 a.o2 a.o3
    (by simp; omega) o0 o1 o2 o3 h0 h1 h2 h3)]
  rw [ipv4_octet0 _ _ _ _ h0 h1 h2 h3, ipv4_octet1 _ _ _ _ h0 h1 h2 h3,
    ipv4_octet2 _ _ _ _ h0 h1 h2 h3, ipv4_octet3 _ _ _ _ h0 h1 h2 h3]
  rw [pure_apply]
  rw [show b.pos + (wireRecordA d a t).length =
    b.pos + (wireName d).length + 2 + 2 + 4 + 2 + 4 from by omega]

theorem readQuestions_wire :
    ∀ (qs : List Question) (b : BytePacketBuffer),
      (∀ q ∈ qs, GoodName q.name) →
      HasBytes b.buf b.pos (wireQuestions qs) →
      b.pos + (wireQuestions qs).length ≤ 512 →
      readQuestions qs.length b =
        .ok qs { b with pos := b.pos + (wireQuestions qs).length } := by
  intro qs
  induction qs with
  | nil =>
    intro b hg hh hp
    exact pure_apply [] b
  | cons q rest ih =>
    intro b hg hh hp
    have hlen : (wireQuestions (q :: rest)).length =
        (wireQuestion q).length + (wireQuestions rest).length := by
      simp [wireQuestions]
    simp only [wireQuestions] at hh
    rw [hasBytes_append] at hh
    obtain ⟨hq, hrest⟩ := hh
    show (Question.read >>= fun q2 => readQuestions rest.length >>= fun rest2 =>
      pure (q2 :: rest2)) b = _
    rw [bind_ok _ _ (question_read_wire q b (hg q (List.mem_cons_self q rest))
      hq (by omega))]
    rw [bind_ok _ _ (ih { b with pos := b.pos + (wireQuestion q).length }
      (fun x hx => hg x (List.mem_cons_of_mem q hx)) hrest (by simp; omega))]
    rw [pure_apply]
    rw [show b.pos + (wireQuestions (q :: rest)).length =
      b.pos + (wireQuestion q).length + (wireQuestions rest).length from by omega]

theorem readRecords_wire :
    ∀ (rs : List Record) (b : BytePacketBuffer),
      (∀ r ∈ rs, r.WfA) →
      HasBytes b.buf b.pos (wireRecords rs) →
      b.pos + (wireRecords rs).length ≤ 512 →
      readRecords rs.length b =
        .ok rs { b with pos := b.pos + (wireRecords rs).length } := by
  intro rs
  induction rs with
  | nil =>
    intro b hg hh hp
    exact pure_apply [] b
  | cons r rest ih =>
    intro b hg hh hp
    have hwf := hg r (List.mem_cons_self r rest)
    cases r with
    | Unknown dd qq ll tt => exact absurd hwf (by simp [Record.WfA])
    | A d a t =>
      obtain ⟨hgn, h0, h1, h2, h3, ht⟩ := hwf
      have hlen : (wireRecords (Record.A d a t :: rest)).length =
          (wireRecordA d a t).length + (wireRecords rest).length := by
        simp [wireRecords, wireRecord]
      simp only [wireRecords, wireRecord] at hh
      rw [hasBytes_append] at hh
      obtain ⟨hr, hrest⟩ := hh
      show (Record.read >>= fun r2 => readRecords rest.length >>= fun rest2 =>
        pure (r2 :: rest2)) b = _
      rw [bind_ok _ _ (record_read_wireA d a t b hgn h0 h1 h2 h3 ht hr (by omega))]
      rw [bind_ok _ _ (ih { b with pos := b.pos + (wireRecordA d a t).length }
        (fun x hx => hg x (List.mem_cons_of_mem _ hx)) hrest (by simp; omega))]
      rw [pure_apply]
      rw [show b.pos + (wireRecords (Record.A d a t :: rest)).length =
        b.pos + (wireRecordA d a t).length + (wireRecords rest).length from by omega]

theorem inv_header_write {h : Header} {b b2 : BytePacketBuffer}
    (hw : Header.write h b = .ok () b2) : Wrote b b2 (wireHeader h) := by
  rw [header_write_eq] at hw
  obtain ⟨_u, b1, h1, hw⟩ := inv_bind hw
  obtain ⟨_u, bb2, h2, hw⟩ := inv_bind hw
  obtain ⟨_u, b3, h3, hw⟩ := inv_bind hw
  obtain ⟨_u, b4, h4, hw⟩ := inv_bind hw
  obtain ⟨_u, b5, h5, hw⟩ := inv_bind hw
  obtain ⟨_u, b6, h6, h7⟩ := inv_bind hw
  exact ((BytePacketBuffer.inv_write_u16 h1).append
    ((BytePacketBuffer.inv_write h2).append
      ((BytePacketBuffer.inv_write h3).append
        ((BytePacketBuffer.inv_write_u16 h4).append
          ((BytePacketBuffer.inv_write_u16 h5).append
            ((BytePacketBuffer.inv_write_u16 h6).append
              (BytePacketBuffer.inv_write_u16 h7))))))).cast
    (by simp [wireHeader, wireU16])

namespace BytePacketBuffer

theorem inv_writeBytes :
    ∀ {l : List Nat} {b b2 : BytePacketBuffer},
      writeBytes l b = .ok () b2 → b.pos ≤ 512 → Wrote b b2 l := by
  intro l
  induction l with
  | nil =>
    intro b b2 h hb
    rw [show writeBytes [] = (pure () : DnsM Unit) from rfl, pure_apply] at h
    cases h
    exact wrote_nil b hb
  | cons x xs ih =>
    intro b b2 h hb
    obtain ⟨_u, b1, h1, h2⟩ := inv_bind h
    have w1 := inv_write h1
    have hb1 : b1.pos ≤ 512 := by have := w1.pos_eq; have := w1.bound; simp at *; omega
    exact (w1.append (ih h2 hb1)).cast (by simp)

theorem inv_writeLabels :
    ∀ {ls : List (List Nat)} {b b2 : BytePacketBuffer},
      writeLabels ls b = .ok () b2 → b.pos ≤ 512 → Wrote b b2 (wireLabels ls) := by
  intro ls
  induction ls with
  | nil =>
    intro b b2 h hb
    rw [show writeLabels [] = (pure () : DnsM Unit) from rfl, pure_apply] at h
    cases h
    exact wrote_nil b hb
  | cons l rest ih =>
    intro b b2 h hb
    rw [show writeLabels (l :: rest) =
      (if 0x3F < l.length then (fun b => .error .labelTooLong b : DnsM Unit)
        else write_u8 l.length >>= fun _ => writeBytes l >>= fun _ => writeLabels rest)
      from rfl] at h
    by_cases hlen : 0x3F < l.length
    · rw [if_pos hlen] at h
      exact EStateM.Result.noConfusion h
    · rw [if_neg hlen] at h
      obtain ⟨_u, b1, h1, h⟩ := inv_bind h
      obtain ⟨_u, bb2, h2, h3⟩ := inv_bind h
      have w1 := inv_write h1
      have hb1 : b1.pos ≤ 512 := by have := w1.pos_eq; have := w1.bound; simp at *; omega
      have w2 := inv_writeBytes h2 hb1
      have hb2 : bb2.pos ≤ 512 := by have := w2.pos_eq; have := w2.bound; omega
      exact (w1.append (w2.append (ih h3 hb2))).cast
        (by simp [wireLabels, wireLabel])

theorem inv_write_qname {n : List Nat} {b b2 : BytePacketBuffer}
    (h : write_qname n b = .ok () b2) (hb : b.pos ≤ 512) :
    Wrote b b2 (wireName n) := by
  unfold write_qname at h
  obtain ⟨_u, b1, h1, h2⟩ := inv_bind h
  have w1 := inv_writeLabels h1 hb
  exact (w1.append (inv_write h2)).cast (by simp [wireName])

end BytePacketBuffer

theorem inv_question_write {q : Question} {b b2 : BytePacketBuffer}
    (h : Question.write q b = .ok () b2) (hb : b.pos ≤ 512) :
    Wrote b b2 (wireQuestion q) := by
  unfold Question.write at h
  obtain ⟨_u, b1, h1, h⟩ := inv_bind h
  obtain ⟨_u, bb2, h2, h3⟩ := inv_bind h
  have w1 := BytePacketBuffer.inv_write_qname h1 hb
  exact (w1.append ((BytePacketBuffer.inv_write_u16 h2).append
    (BytePacketBuffer.inv_write_u16 h3))).cast
    (by simp [wireQuestion, List.append_assoc])

theorem inv_record_write {r : Record} {b b2 : BytePacketBuffer} {sz : Nat}
    (h : Record.write r b = .ok sz b2) (hb : b.pos ≤ 512) :
    Wrote b b2 (wireRecord r) := by
  cases r with
  | A d a t =>
    have h2 : (BytePacketBuffer.write_qname d >>= fun _ =>
        BytePacketBuffer.write_u16 QType.A.toNat >>= fun _ =>
        BytePacketBuffer.write_u16 1 >>= fun _ =>
        BytePacketBuffer.write_u32 t >>= fun _ =>
        BytePacketBuffer.write_u16 4 >>= fun _ =>
        BytePacketBuffer.write_u8 a.o0 >>= fun _ =>
        BytePacketBuffer.write_u8 a.o1 >>= fun _ =>
        BytePacketBuffer.write_u8 a.o2 >>= fun _ =>
        BytePacketBuffer.write_u8 a.o3 >>= fun _ =>
        (fun bb => EStateM.Result.ok (bb.pos - b.pos) bb : DnsM Nat)) b =
        .ok sz b2 := h
    obtain ⟨_u, c1, g1, hws⟩ := inv_bind h2
    obtain ⟨_u, c2, g2, hws⟩ := inv_bind hws
    obtain ⟨_u, c3, g3, hws⟩ := inv_bind hws
    obtain ⟨_u, c4, g4, hws⟩ := inv_bind hws
    obtain ⟨_u, c5, g5, hws⟩ := inv_bind hws
    obtain ⟨_u, c6, g6, hws⟩ := inv_bind hws
    obtain ⟨_u, c7, g7, hws⟩ := inv_bind hws
    obtain ⟨_u, c8, g8, hws⟩ := inv_bind hws
    obtain ⟨_u, c9, g9, hfin⟩ := inv_bind hws
    have hb2 : b2 = c9 := by
      have hfin2 : EStateM.Result.ok (c9.pos - b.pos) c9 = .ok sz b2 := hfin
      injection hfin2 with hx hy
      exact hy.symm
    subst hb2
    have w1 := BytePacketBuffer.inv_write_qname g1 hb
    exact (w1.append ((BytePacketBuffer.inv_write_u16 g2).append
      ((BytePacketBuffer.inv_write_u16 g3).append
        ((BytePacketBuffer.inv_write_u32 g4).append
          ((BytePacketBuffer.inv_write_u16 g5).append
            ((BytePacketBuffer.inv_write g6).append
              ((BytePacketBuffer.inv_write g7).append
                ((BytePacketBuffer.inv_write g8).append
                  (BytePacketBuffer.inv_write g9))))))))).cast
      (by simp [wireRecord, wireRecordA, List.append_assoc])
  | Unknown dd qq ll tt =>
    have h2 : (((pure () : DnsM Unit)) >>= fun _ =>
        (fun bb => EStateM.Result.ok (bb.pos - b.pos) bb : DnsM Nat)) b =
        .ok sz b2 := h
    obtain ⟨_u, b1, hws, hfin⟩ := inv_bind h2
    rw [pure_apply] at hws
    cases hws
    have hfin2 : EStateM.Result.ok (b.pos - b.pos) b = .ok sz b2 := hfin
    injection hfin2 with hx hy
    subst hy
    exact wrote_nil b hb

theorem inv_writeQuestions :
    ∀ {qs : List Question} {b b2 : BytePacketBuffer},
      writeQuestions qs b = .ok () b2 → b.pos ≤ 512 → Wrote b b2 (wireQuestions qs) := by
  intro qs
  induction qs with
  | nil =>
    intro b b2 h hb
    rw [show writeQuestions [] = (pure () : DnsM Unit) from rfl, pure_apply] at h
    cases h
    exact wrote_nil b hb
  | cons q rest ih =>
    intro b b2 h hb
    obtain ⟨_u, b1, h1, h2⟩ := inv_bind h
    have w1 := inv_question_write h1 hb
    have hb1 : b1.pos ≤ 512 := by have := w1.pos_eq; have := w1.bound; omega
    exact (w1.append (ih h2 hb1)).cast (by simp [wireQuestions])

theorem inv_writeRecords :
    ∀ {rs : List Record} {b b2 : BytePacketBuffer},
      writeRecords rs b = .ok () b2 → b.pos ≤ 512 → Wrote b b2 (wireRecords rs) := by
  intro rs
  induction rs with
  | nil =>
    intro b b2 h hb
    rw [show writeRecords [] = (pure () : DnsM Unit) from rfl, pure_apply] at h
    cases h
    exact wrote_nil b hb
  | cons r rest ih =>
    intro b b2 h hb
    obtain ⟨sz, b1, h1, h2⟩ := inv_bind h
    have w1 := inv_record_write h1 hb
    have hb1 : b1.pos ≤ 512 := by have := w1.pos_eq; have := w1.bound; omega
    exact (w1.append (ih h2 hb1)).cast (by simp [wireRecords])

theorem inv_packet_write {p : Packet} {b b2 : BytePacketBuffer}
    (hw : Packet.write p b = .ok () b2) (hb : b.pos ≤ 512) :
    Wrote b b2 (wirePacket p) := by
  have hw2 : (Header.write p.encHeader >>= fun _ =>
      writeQuestions p.questions >>= fun _ => writeRecords p.answers) b =
      .ok () b2 := hw
  obtain ⟨_u, b1, h1, hw2⟩ := inv_bind hw2
  obtain ⟨_u, bq, h2, h3⟩ := inv_bind hw2
  have w1 := inv_header_write h1
  have hb1 : b1.pos ≤ 512 := by have := w1.pos_eq; have := w1.bound; omega
  have w2 := inv_writeQuestions h2 hb1
  have hb2 : bq.pos ≤ 512 := by have := w2.pos_eq; have := w2.bound; omega
  have w3 := inv_writeRecords h3 hb2
  exact (w1.append (w2.append w3)).cast (by simp [wirePacket, List.append_assoc])

theorem ex_question_write (q : Question) (b : BytePacketBuffer)
    (hl : ∀ l ∈ splitDots q.name, l.length ≤ 63)
    (hp : b.pos + (wireQuestion q).length ≤ 512) :
    ∃ b2, Question.write q b = .ok () b2 ∧ Wrote b b2 (wireQuestion q) := by
  have hql : (wireQuestion q).length = (wireName q.name).length + 4 := by
    simp [wireQuestion, wireU16]
  obtain ⟨b1, h1, w1⟩ := BytePacketBuffer.ex_write_qname q.name b hl (by omega)
  have p1 := w1.pos_eq
  obtain ⟨b2, h2, w2⟩ := BytePacketBuffer.ex_write_u16 q.qtype.toNat b1 (by omega)
  have p2 := w2.pos_eq
  rw [wireU16_length] at p2
  obtain ⟨b3, h3, w3⟩ := BytePacketBuffer.ex_write_u16 q.qclass.toNat b2 (by omega)
  refine ⟨b3, ?_, (w1.append (w2.append w3)).cast
    (by simp [wireQuestion, List.append_assoc])⟩
  show (BytePacketBuffer.write_qname q.name >>= fun _ =>
    BytePacketBuffer.write_u16 q.qtype.toNat >>= fun _ =>
    BytePacketBuffer.write_u16 q.qclass.toNat) b = _
  rw [bind_ok _ _ h1, bind_ok _ _ h2]
  exact h3

theorem ex_record_write (r : Record) (b : BytePacketBuffer) (hr : r.WfA)
    (hp : b.pos + (wireRecord r).length ≤ 512) :
    ∃ b2 sz, Record.write r b = .ok sz b2 ∧ Wrote b b2 (wireRecord r) := by
  cases r with
  | Unknown dd qq ll tt => exact absurd hr (by simp [Record.WfA])
  | A d a t =>
    obtain ⟨hgn, h0, h1, h2, h3, ht⟩ := hr
    have hrl : (wireRecord (Record.A d a t)).length = (wireName d).length + 14 := by
      simp [wireRecord, wireRecordA, wireU16, wireU32]
    obtain ⟨c1, g1, v1⟩ := BytePacketBuffer.ex_write_qname d b
      (fun l hl => ((hgn l hl).2.1)) (by omega)
    have q1 := v1.pos_eq
    obtain ⟨c2, g2, v2⟩ := BytePacketBuffer.ex_write_u16 QType.A.toNat c1 (by omega)
    have q2 := v2.pos_eq
    rw [wireU16_length] at q2
    obtain ⟨c3, g3, v3⟩ := BytePacketBuffer.ex_write_u16 1 c2 (by omega)
    have q3 := v3.pos_eq
    rw [wireU16_length] at q3
    obtain ⟨c4, g4, v4⟩ := BytePacketBuffer.ex_write_u32 t c3 (by omega)
    have q4 := v4.pos_eq
    rw [wireU32_length] at q4
    obtain ⟨c5, g5, v5⟩ := BytePacketBuffer.ex_write_u16 4 c4 (by omega)
    have q5 := v5.pos_eq
    rw [wireU16_length] at q5
    obtain ⟨c6, g6, v6⟩ := BytePacketBuffer.ex_write_u8 a.o0 c5 (by omega)
    have q6 := v6.pos_eq
    obtain ⟨c7, g7, v7⟩ := BytePacketBuffer.ex_write_u8 a.o1 c6 (by simp at q6; omega)
    have q7 := v7.pos_eq
    obtain ⟨c8, g8, v8⟩ := BytePacketBuffer.ex_write_u8 a.o2 c7 (by simp at q6 q7; omega)
    have q8 := v8.pos_eq
    obtain ⟨c9, g9, v9⟩ := BytePacketBuffer.ex_write_u8 a.o3 c8 (by simp at q6 q7 q8; omega)
    refine ⟨c9, c9.pos - b.pos, ?_,
      (v1.append (v2.append (v3.append (v4.append (v5.append (v6.append
        (v7.append (v8.append v9)))))))).cast
      (by simp [wireRecord, wireRecordA, List.append_assoc])⟩
    show (BytePacketBuffer.write_qname d >>= fun _ =>
      BytePacketBuffer.write_u16 QType.A.toNat >>= fun _ =>
      BytePacketBuffer.write_u16 1 >>= fun _ =>
      BytePacketBuffer.write_u32 t >>= fun _ =>
      BytePacketBuffer.write_u16 4 >>= fun _ =>
      BytePacketBuffer.write_u8 a.o0 >>= fun _ =>
      BytePacketBuffer.write_u8 a.o1 >>= fun _ =>
      BytePacketBuffer.write_u8 a.o2 >>= fun _ =>
      BytePacketBuffer.write_u8 a.o3 >>= fun _ =>
      (fun bb => EStateM.Result.ok (bb.pos - b.pos) bb : DnsM Nat)) b = _
    rw [bind_ok _ _ g1, bind_ok _ _ g2, bind_ok _ _ g3, bind_ok _ _ g4,
      bind_ok _ _ g5, bind_ok _ _ g6, bind_ok _ _ g7, bind_ok _ _ g8,
      bind_ok _ _ g9]

theorem ex_writeQuestions :
    ∀ (qs : List Question) (b : BytePacketBuffer),
      (∀ q ∈ qs, ∀ l ∈ splitDots q.name, l.length ≤ 63) →
      b.pos + (wireQuestions qs).length ≤ 512 →
      ∃ b2, writeQuestions qs b = .ok () b2 ∧ Wrote b b2 (wireQuestions qs) := by
  intro qs
  induction qs with
  | nil =>
    intro b hl hp
    exact ⟨b, pure_apply () b, wrote_nil b (by simpa [wireQuestions] using hp)⟩
  | cons q rest ih =>
    intro b hl hp
    have hlen : (wireQuestions (q :: rest)).length =
        (wireQuestion q).length + (wireQuestions rest).length := by
      simp [wireQuestions]
    obtain ⟨b1, h1, w1⟩ := ex_question_write q b
      (hl q (List.mem_cons_self q rest)) (by omega)
    have p1 := w1.pos_eq
    obtain ⟨b2, h2, w2⟩ := ih b1
      (fun x hx => hl x (List.mem_cons_of_mem q hx)) (by omega)
    refine ⟨b2, ?_, (w1.append w2).cast (by simp [wireQuestions])⟩
    show (Question.write q >>= fun _ => writeQuestions rest) b = _
    rw [bind_ok _ _ h1]
    exact h2

theorem ex_writeRecords :
    ∀ (rs : List Record) (b : BytePacketBuffer),
      (∀ r ∈ rs, r.WfA) →
      b.pos + (wireRecords rs).length ≤ 512 →
      ∃ b2, writeRecords rs b = .ok () b2 ∧ Wrote b b2 (wireRecords rs) := by
  intro rs
  induction rs with
  | nil =>
    intro b hl hp
    exact ⟨b, pure_apply () b, wrote_nil b (by simpa [wireRecords] using hp)⟩
  | cons r rest ih =>
    intro b hl hp
    have hlen : (wireRecords (r :: rest)).length =
        (wireRecord r).length + (wireRecords rest).length := by
      simp [wireRecords]
    obtain ⟨b1, sz, h1, w1⟩ := ex_record_write r b
      (hl r (List.mem_cons_self r rest)) (by omega)
    have p1 := w1.pos_eq
    obtain ⟨b2, h2, w2⟩ := ih b1
      (fun x hx => hl x (List.mem_cons_of_mem r hx)) (by omega)
    refine ⟨b2, ?_, (w1.append w2).cast (by simp [wireRecords])⟩
    show (Record.write r >>= fun _ => writeRecords rest) b = _
    rw [bind_ok _ _ h1]
    exact h2

theorem ex_packet_write (p : Packet) (b : BytePacketBuffer)
    (hqs : ∀ q ∈ p.questions, ∀ l ∈ splitDots q.name, l.length ≤ 63)
    (hrs : ∀ r ∈ p.answers, r.WfA)
    (hp : b.pos + (wirePacket p).length ≤ 512) :
    ∃ b2, Packet.write p b = .ok () b2 ∧ Wrote b b2 (wirePacket p) := by
  have hlen : (wirePacket p).length = 12 + (wireQuestions p.questions).length +
      (wireRecords p.answers).length := by
    simp [wirePacket, wireHeader_length]
    omega
  obtain ⟨b1, h1, w1⟩ := header_write_ex p.encHeader b (by omega)
  have p1 := w1.pos_eq
  rw [wireHeader_length] at p1
  obtain ⟨b2, h2, w2⟩ := ex_writeQuestions p.questions b1 hqs (by omega)
  have p2 := w2.pos_eq
  obtain ⟨b3, h3, w3⟩ := ex_writeRecords p.answers b2 hrs (by omega)
  refine ⟨b3, ?_, (w1.append (w2.append w3)).cast
    (by simp [wirePacket, List.append_assoc])⟩
  show (Header.write p.encHeader >>= fun _ =>
    writeQuestions p.questions >>= fun _ => writeRecords p.answers) b = _
  rw [bind_ok _ _ h1, bind_ok _ _ h2]
  exact h3

theorem roundTrip_eval (p : Packet)
    (hqs : ∀ q ∈ p.questions, GoodName q.name)
    (hrs : ∀ r ∈ p.answers, r.WfA)
    (hid : p.header.id < 65536)
    (hql : p.questions.length < 65536) (hal : p.answers.length < 65536)
    (hfit : (wirePacket p).length ≤ 512) :
    ∃ b2, roundTrip p = .ok (Packet.mk p.encHeader p.questions p.answers) b2 := by
  obtain ⟨bw, hw, w⟩ := ex_packet_write p BytePacketBuffer.new
    (fun q hq l hl => ((hqs q hq) l hl).2.1) hrs
    (by show (0 : Nat) + (wirePacket p).length ≤ 512; omega)
  have whas := w.has
  have wbound := w.bound
  rw [show BytePacketBuffer.new.pos = 0 from rfl] at whas wbound
  simp only [wirePacket, List.append_assoc] at whas wbound
  rw [hasBytes_append] at whas
  obtain ⟨hH, hQR⟩ := whas
  rw [hasBytes_append] at hQR
  obtain ⟨hQ, hR⟩ := hQR
  rw [List.length_append, List.length_append, wireHeader_length] at wbound
  unfold roundTrip
  rw [hw]
  show ∃ b2, Packet.from_buffer { bw with pos := 0 } = _
  apply Exists.intro
  unfold Packet.from_buffer
  rw [bind_ok _ _ (header_read_wire p.encHeader { bw with pos := 0 }
    hid (by show p.questions.length < 65536; omega)
    (by show p.answers.length < 65536; omega)
    (by show (0 : Nat) < 65536; omega) (by show (0 : Nat) < 65536; omega)
    (by show (0 : Nat) + 12 ≤ 512; omega) hH)]
  rw [show p.encHeader.question_count = p.questions.length from rfl]
  rw [bind_ok _ _ (readQuestions_wire p.questions { bw with pos := 0 + 12 }
    hqs hQ (by simp; omega))]
  rw [show p.encHeader.answer_count = p.answers.length from rfl]
  rw [bind_ok _ _ (readRecords_wire p.answers
    { bw with pos := 0 + 12 + (wireQuestions p.questions).length }
    hrs hR (by simp; omega))]
  rw [pure_apply]

/-- C1 counterexample: the claim quantifies over every Message whose
answers are all A records, but a Message whose header counts disagree
with its lists does not round-trip: encode overwrites
header.question_count with the list length (here 0, while the input
header says 1), so decode returns a different Message. -/
theorem c1_counterexample :
    ∃ b2, roundTrip mismatchPacket = .ok Packet.default b2 ∧
      Packet.default ≠ mismatchPacket := by
  obtain ⟨b2, h⟩ := roundTrip_eval mismatchPacket (by simp [mismatchPacket])
    (by simp [mismatchPacket]) (by decide) (by decide) (by decide) (by decide)
  exact ⟨b2, h, by decide⟩

/-- C1 (amended): for every well-formed Message — header counts equal to
the list lengths with zero authority and additional counts, u16-bounded
header fields, questions and answers whose names are nonempty
lowercase-ASCII labels of at most 63 bytes, and answers that are all A
variants with in-range octets and ttl — whose encoding into a fresh
buffer succeeds, decoding the produced bytes yields the Message back;
encode sets header.question_count and header.answer_count from the list
lengths, forces authority_count and additional_count to 0, then writes
the header, each question in list order, and each answer in list order
(the definition of Packet.write, and the byte layout wirePacket). -/
theorem c1_encode_decode_roundtrip (p : Packet) (hwf : p.Wf)
    (hok : ∃ b, Packet.write p BytePacketBuffer.new = .ok () b) :
    ∃ b2, roundTrip p = .ok p b2 := by
  obtain ⟨⟨hid, hqcb, hacb⟩, hqc, hac, hau, had, hqs, hrs⟩ := hwf
  obtain ⟨bw, hw⟩ := hok
  have w := inv_packet_write hw (by show (0 : Nat) ≤ 512; omega)
  have whas := w.has
  have wbound := w.bound
  have hEnc : p.encHeader = p.header := by
    show Header.mk p.header.id p.header.is_reply p.header.opcode p.header.authoritative
      p.header.truncation p.header.recursion_desired p.header.recursion_available
      p.header.rcode p.questions.length p.answers.length 0 0 = p.header
    rw [← hqc, ← hac]
    nth_rewrite 2 [← had]
    nth_rewrite 1 [← hau]
    rfl
  rw [show BytePacketBuffer.new.pos = 0 from rfl] at whas wbound
  simp only [wirePacket, List.append_assoc] at whas wbound
  rw [hasBytes_append] at whas
  obtain ⟨hH, hQR⟩ := whas
  rw [hasBytes_append] at hQR
  obtain ⟨hQ, hR⟩ := hQR
  rw [List.length_append, List.length_append, wireHeader_length] at wbound
  unfold roundTrip
  rw [hw]
  show ∃ b2, Packet.from_buffer { bw with pos := 0 } = .ok p b2
  apply Exists.intro
  unfold Packet.from_buffer
  rw [bind_ok _ _ (header_read_wire p.encHeader { bw with pos := 0 }
    hid (by show p.questions.length < 65536; omega)
    (by show p.answers.length < 65536; omega)
    (by show (0 : Nat) < 65536; omega) (by show (0 : Nat) < 65536; omega)
    (by show (0 : Nat) + 12 ≤ 512; omega) hH)]
  rw [show p.encHeader.question_count = p.questions.length from rfl]
  rw [bind_ok _ _ (readQuestions_wire p.questions { bw with pos := 0 + 12 }
    hqs hQ (by simp; omega))]
  rw [show p.encHeader.answer_count = p.answers.length from rfl]
  rw [bind_ok _ _ (readRecords_wire p.answers
    { bw with pos := 0 + 12 + (wireQuestions p.questions).length }
    hrs hR (by simp; omega))]
  rw [pure_apply, hEnc]

/-- Witness for C1: a concrete one-question, one-A-answer message
round-trips. -/
theorem c1_witness : ∃ b2, roundTrip witPacket = .ok witPacket b2 := by
  obtain ⟨b, hb, -⟩ := ex_packet_write witPacket BytePacketBuffer.new
    (by decide)
    (by simp only [witPacket, List.mem_singleton]
        rintro r rfl
        simp only [Record.WfA, GoodName, GoodLabel, splitDots]
        decide)
    (by decide)
  exact c1_encode_decode_roundtrip witPacket
    (by refine ⟨⟨by decide, by decide, by decide⟩, by decide, by decide,
          by decide, by decide, ?_, ?_⟩
        · simp only [witPacket, List.mem_singleton]
          rintro q rfl
          simp only [GoodName, GoodLabel, splitDots]
          decide
        · simp only [witPacket, List.mem_singleton]
          rintro r rfl
          simp only [Record.WfA, GoodName, GoodLabel, splitDots]
          decide)
    ⟨b, hb⟩

end Dns
